import Mathlib

set_option linter.all false
set_option synthInstance.maxSize 1024
set_option maxRecDepth 4096

/-!
Shallow embedding of graphdb.py: an in-memory, label-indexed graph
database with labelled nodes, undirected connections, property
indexing and bounded breadth-first traversal.

Modelling conventions:
* Python Node objects are modelled by handles (indices into an arena
  list of Node records); Python object identity is handle equality.
* Python dicts are association lists in insertion order; dict update
  replaces in place, a new key is appended at the end.
* Python sets are duplicate-free lists in insertion order.
* Python exceptions are Except String values; the state-threading
  operations return the store that is live when the exception leaves
  the operation.
* The list self.allIndexSets of aliased set references is modelled by
  the list of index paths (label, keyName, keyValue) at which those
  sets live, which is faithful because an index set is created at one
  path and never moves.
-/

/-- Association-list read, mirroring Python dict access. -/
def dget {α β : Type} [DecidableEq α] : List (α × β) → α → Option β
  | [], _ => none
  | (k, v) :: rest, k' => if k = k' then some v else dget rest k'

/-- Association-list write, mirroring Python dict update: replaces the
    value in place preserving key order, appends a new key at the end. -/
def dput {α β : Type} [DecidableEq α] : List (α × β) → α → β → List (α × β)
  | [], k, v => [(k, v)]
  | (k0, v0) :: rest, k, v =>
      if k0 = k then (k, v) :: rest else (k0, v0) :: dput rest k v

/-- Set insertion, mirroring Python set.add on an insertion-ordered
    duplicate-free list. -/
def setAdd {α : Type} [DecidableEq α] (s : List α) (x : α) : List α :=
  if x ∈ s then s else s ++ [x]

/-- Arena read by handle; out-of-range handles give the default element
    (unreachable on well-formed stores). -/
def lget {α : Type} [Inhabited α] : List α → Nat → α
  | [], _ => default
  | x :: _, 0 => x
  | _ :: xs, n + 1 => lget xs n

/-- Arena write by handle; out of range is a no-op. -/
def lset {α : Type} : List α → Nat → α → List α
  | [], _, _ => []
  | _ :: xs, 0, v => v :: xs
  | x :: xs, n + 1, v => x :: lset xs n v

/-- Character-list splitting used to model Python str.split with a
    single-character separator. -/
def splitCharList (sep : Char) : List Char → List (List Char)
  | [] => [[]]
  | c :: rest =>
    let r := splitCharList sep rest
    if c = sep then [] :: r
    else
      match r with
      | [] => [[c]]
      | h :: t => (c :: h) :: t

/-- Python str.split(sep) for a single-character separator. -/
def pySplit (s : String) (sep : Char) : List String :=
  (splitCharList sep s.data).map (fun l => String.mk l)

/-- Numeric value of a digit string. -/
def digitsVal (l : List Char) : Nat :=
  l.foldl (fun a c => a * 10 + (c.toNat - 48)) 0

/-- Models CPython str.__format__ as used by the expression
    f quoting label with the id string as format specification inside
    throwIfNodeAlreadyExists: an empty specification returns the string
    unchanged, a plain decimal width pads with spaces on the right, and
    every other specification shape is treated as an invalid format
    specifier and raises. -/
def pyFormatStr (s spec : String) : Except String String :=
  if spec = "" then .ok s
  else if spec.data.all Char.isDigit && spec.data.headD '0' ≠ '0' then
    .ok (String.mk (s.data ++ List.replicate (digitsVal spec.data - s.data.length) ' '))
  else .error "Invalid format specifier"

/-- Node record: label, property dict (the id lives in the dict under
    the reserved key) and the set of connected handles. -/
structure Node where
  label : String
  properties : List (String × String)
  connections : List Nat
  deriving DecidableEq, Repr

instance : Inhabited Node := ⟨{ label := "", properties := [], connections := [] }⟩

/-- Node constructor: properties start as the singleton dict holding the
    reserved id property, connections start empty. -/
def Node.new (id label : String) : Node :=
  { label := label, properties := [("id", id)], connections := [] }

/-- Node.addOrUpdateProperty: rejects the reserved id key, otherwise
    upserts into the property dict. -/
def Node.addOrUpdateProperty (n : Node) (propertyName value : String) :
    Except String Node :=
  if "id" = propertyName then .error "Reserved property id cannot be added/updated."
  else .ok { n with properties := dput n.properties propertyName value }

abbrev ValMap := List (Option String × List Nat)
abbrev KeyMap := List (Option String × ValMap)
abbrev IStore := List (String × KeyMap)

/-- GraphDB state: the arena of all node records ever kept, the node
    set, the three-level index store label, key, value to node set, and
    the registry of created value-level index sets. -/
structure GraphDB where
  nodes : List Node
  nodeSet : List Nat
  indexeStore : IStore
  allIndexSets : List (String × String × String)
  deriving DecidableEq, Repr

def emptyDB : GraphDB :=
  { nodes := [], nodeSet := [], indexeStore := [], allIndexSets := [] }

def nodeAt (db : GraphDB) (h : Nat) : Node := lget db.nodes h

/-- Nested read of the index store with empty-dict defaults, mirroring
    indexeStore.get(label, empty).get(key, empty).get(value, empty set). -/
def GraphDB.lookupSet (db : GraphDB) (l : String) (k v : Option String) : List Nat :=
  (dget ((dget ((dget db.indexeStore l).getD []) k).getD []) v).getD []

/-- parseQueryClause: one part means the implicit id key, two parts are
    key and value, more raise Invalid Query. -/
def parseQueryClause (query : String) : Except String (String × String) :=
  let queryParts := pySplit query '='
  if queryParts.length = 1 then .ok ("id", queryParts.getD 0 "")
  else if queryParts.length = 2 then
    .ok (queryParts.getD 0 "", queryParts.getD 1 "")
  else .error "Invalid Query"

/-- parseQueryQualifier: Label alone gives (Label, none, none); one
    colon delegates the clause to parseQueryClause; anything else raises
    Invalid Query. -/
def parseQueryQualifier (queryQualifier : String) :
    Except String (String × Option String × Option String) :=
  let queryQualifierParts := pySplit queryQualifier ':'
  if queryQualifierParts.length = 2 then
    match parseQueryClause (queryQualifierParts.getD 1 "") with
    | .error e => .error e
    | .ok (key, value) => .ok (queryQualifierParts.getD 0 "", some key, some value)
  else if queryQualifierParts.length = 1 then
    .ok (queryQualifierParts.getD 0 "", none, none)
  else .error "Invalid Query"

/-- doesNodeMatchQuery: parse the clause (may raise), then compare the
    property value by string equality; an absent property never matches. -/
def doesNodeMatchQuery (n : Node) (query : String) : Except String Bool :=
  match parseQueryClause query with
  | .error e => .error e
  | .ok (key, value) =>
    match dget n.properties key with
    | some nodeVaule => .ok (nodeVaule == value)
    | none => .ok false

/-- GraphDB.index: lazily create the label level (together with its
    label-only set), the key level and the value set, registering a
    freshly created value set in allIndexSets, then add the node to the
    value set and to the label-only set. -/
def GraphDB.index (db : GraphDB) (label keyName keyValue : String) (nodeH : Nat) :
    GraphDB :=
  let s1 := if (dget db.indexeStore label).isNone
            then dput db.indexeStore label [(none, [(none, [])])]
            else db.indexeStore
  let km0 := (dget s1 label).getD []
  let km1 := if (dget km0 (some keyName)).isNone then dput km0 (some keyName) [] else km0
  let vm0 := (dget km1 (some keyName)).getD []
  let isNew := (dget vm0 (some keyValue)).isNone
  let vm1 := if isNew then dput vm0 (some keyValue) [] else vm0
  let ai1 := if isNew then db.allIndexSets ++ [(label, keyName, keyValue)]
             else db.allIndexSets
  let vs := (dget vm1 (some keyValue)).getD []
  let vm2 := dput vm1 (some keyValue) (setAdd vs nodeH)
  let km2 := dput km1 (some keyName) vm2
  let ls0 := (dget km2 (none : Option String)).getD []
  let lbl := (dget ls0 (none : Option String)).getD []
  let km3 := dput km2 none (dput ls0 none (setAdd lbl nodeH))
  { db with indexeStore := dput s1 label km3, allIndexSets := ai1 }

/-- GraphDB.query: no qualifier returns the whole node set, otherwise
    the qualifier is parsed and the indexed set is read with empty-set
    defaults. -/
def GraphDB.query (db : GraphDB) (queryQualifier : Option String) :
    Except String (List Nat) :=
  match queryQualifier with
  | none => .ok db.nodeSet
  | some qs =>
    match parseQueryQualifier qs with
    | .error e => .error e
    | .ok (label, key, value) => .ok (db.lookupSet label key value)

/-- GraphDB.queryById: parse, insist the parsed key is literally id,
    then take the first element of the indexed set; any failure inside
    the lookup is the not-found error. -/
def GraphDB.queryById (db : GraphDB) (queryQualifier : String) : Except String Nat :=
  match parseQueryQualifier queryQualifier with
  | .error e => .error e
  | .ok (label, key, value) =>
    if key ≠ some "id" then
      .error ("Invalid query format for searchById. try: " ++ label)
    else
      match dget db.indexeStore label with
      | none => .error ("No nodes of type " ++ label ++ " found")
      | some km =>
        match dget km key with
        | none => .error ("No nodes of type " ++ label ++ " found")
        | some vm =>
          match dget vm value with
          | none => .error ("No nodes of type " ++ label ++ " found")
          | some s =>
            match s with
            | [] => .error ("No nodes of type " ++ label ++ " found")
            | h :: _ => .ok h

/-- Node.addConnection on handles: a self connection raises before any
    mutation; otherwise the target handle is added to the receiver's
    connection set and the receiver to the target's. -/
def GraphDB.addConnection (db : GraphDB) (selfH nodeH : Nat) : Except String GraphDB :=
  if nodeH = selfH then .error "Cannot connect onself."
  else
    let n1 := lget db.nodes selfH
    let nodes1 := lset db.nodes selfH { n1 with connections := setAdd n1.connections nodeH }
    let n2 := lget nodes1 nodeH
    let nodes2 := lset nodes1 nodeH { n2 with connections := setAdd n2.connections selfH }
    .ok { db with nodes := nodes2 }

/-- GraphDB.connect: resolve both qualifiers by id, then add the
    undirected connection. -/
def GraphDB.connect (db : GraphDB) (q1 q2 : String) : Except String Unit × GraphDB :=
  match db.queryById q1 with
  | .error e => (.error e, db)
  | .ok n1 =>
    match db.queryById q2 with
    | .error e => (.error e, db)
    | .ok n2 =>
      match db.addConnection n1 n2 with
      | .error e => (.error e, db)
      | .ok db1 => (.ok (), db1)

/-- Removal of a node from the index set registered at one path,
    mirroring indexSet.remove through the alias list. -/
def istoreRemove (s : IStore) (p : String × String × String) (h : Nat) : IStore :=
  match dget s p.1 with
  | none => s
  | some km =>
    match dget km (some p.2.1) with
    | none => s
    | some vm =>
      match dget vm (some p.2.2) with
      | none => s
      | some set1 =>
        dput s p.1 (dput km (some p.2.1)
          (dput vm (some p.2.2) (set1.filter (fun x => x ≠ h))))

/-- GraphDB.unIndex: remove the node from every registered index set. -/
def GraphDB.unIndex (db : GraphDB) (h : Nat) : GraphDB :=
  { db with indexeStore :=
      db.allIndexSets.foldl (fun s p => istoreRemove s p h) db.indexeStore }

/-- GraphDB.addIndex: index the node under every property of its
    current property dict. -/
def GraphDB.addIndex (db : GraphDB) (h : Nat) : GraphDB :=
  (lget db.nodes h).properties.foldl
    (fun d kv => d.index (lget d.nodes h).label kv.1 kv.2 h) db

/-- GraphDB.reIndex: unIndex then addIndex. -/
def GraphDB.reIndex (db : GraphDB) (h : Nat) : GraphDB :=
  (db.unIndex h).addIndex h

/-- GraphDB.throwIfNodeAlreadyExists for the freshly built node at the
    fresh handle. The membership test uses object identity, so it is
    the test freshH in nodeSet; the second test formats the label with
    the id as format specification (the f-string in the source is a
    format spec, not a label colon id qualifier), queries by id and
    swallows every failure with the bare except. When a duplicate is
    detected the raise itself evaluates node.id, an attribute the Node
    class does not define, so an AttributeError escapes instead of the
    intended message; either way an exception leaves the call. -/
def GraphDB.throwIfNodeAlreadyExists (db : GraphDB) (freshH : Nat) (n : Node) :
    Except String Unit :=
  let found1 := freshH ∈ db.nodeSet
  let found2 :=
    match pyFormatStr n.label ((dget n.properties "id").getD "") with
    | .error _ => false
    | .ok q =>
      match db.queryById q with
      | .error _ => false
      | .ok _ => true
  if found1 || found2 then .error "AttributeError: Node object has no attribute id"
  else .ok ()

/-- GraphDB.addNode: build the node, run the existence check, then add
    to the node set and index. -/
def GraphDB.addNode (db : GraphDB) (label id : String) : Except String Unit × GraphDB :=
  let node := Node.new id label
  let freshH := db.nodes.length
  match db.throwIfNodeAlreadyExists freshH node with
  | .error e => (.error e, db)
  | .ok _ =>
    let db1 := { db with nodes := db.nodes ++ [node], nodeSet := setAdd db.nodeSet freshH }
    (.ok (), db1.reIndex freshH)

/-- GraphDB.addOrUpdateNodeProperty: resolve the node by id, update the
    property (the reserved id key raises before mutation), then reindex. -/
def GraphDB.addOrUpdateNodeProperty (db : GraphDB) (q propertyName propertyValue : String) :
    Except String Unit × GraphDB :=
  match db.queryById q with
  | .error e => (.error e, db)
  | .ok h =>
    match (lget db.nodes h).addOrUpdateProperty propertyName propertyValue with
    | .error e => (.error e, db)
    | .ok n1 =>
      let db1 := { db with nodes := lset db.nodes h n1 }
      (.ok (), db1.reIndex h)

abbrev ResMap := List (Nat × List Nat)

/-- Loop state of the breadth-first search: the visited set, the level
    counter, the per-level result dict (level keys model the str(level)
    keys of the source) and the queue, where none is the end-of-level
    marker. -/
structure BfsState where
  visited : List Nat
  level : Nat
  result : ResMap
  q : List (Option Nat)
  deriving DecidableEq, Repr

/-- Child enumeration of the dequeued node: every connection not yet
    visited is enqueued and marked visited. -/
def enqChildren : List Nat → List (Option Nat) → List Nat → List (Option Nat) × List Nat
  | [], q, v => (q, v)
  | c :: rest, q, v =>
    if c ∈ v then enqChildren rest q v
    else enqChildren rest (q ++ [some c]) (setAdd v c)

/-- One fuelled run of the bfs while loop. Fuel exhaustion returns
    none; a Python exception propagating from the filter returns some
    error; normal completion returns the result dict. -/
def bfsLoop (db : GraphDB) (query : Option String) (maxDepth : Nat) :
    Nat → BfsState → Option (Except String ResMap)
  | 0, _ => none
  | fuel + 1, st =>
    match st.q with
    | [] => some (.ok st.result)
    | qh :: rest =>
      if maxDepth < st.level then some (.ok st.result)
      else
        match qh with
        | none =>
          match rest with
          | some _ :: _ =>
            bfsLoop db query maxDepth fuel
              { st with q := rest ++ [none], level := st.level + 1,
                        result := dput st.result (st.level + 1) [] }
          | _ => some (.ok st.result)
        | some h =>
          let nd := lget db.nodes h
          let visited1 := setAdd st.visited h
          let includeRes : Except String Bool :=
            match query with
            | none => .ok true
            | some qs => if st.level = 0 then .ok true else doesNodeMatchQuery nd qs
          match includeRes with
          | .error e => some (.error e)
          | .ok inc =>
            let result1 :=
              if inc then dput st.result st.level ((dget st.result st.level).getD [] ++ [h])
              else st.result
            let qv := enqChildren nd.connections rest visited1
            bfsLoop db query maxDepth fuel
              { visited := qv.2, level := st.level, result := result1, q := qv.1 }

/-- Fuel that always outlasts the loop: two steps per store node, one
    per level marker, plus slack. -/
def bfsFuel (db : GraphDB) (maxDepth : Nat) : Nat :=
  2 * db.nodes.length + maxDepth + 5

/-- GraphDB.bfs: run the loop from the initial state holding the start
    node and the first end-of-level marker. -/
def GraphDB.bfs (db : GraphDB) (startH : Nat) (query : Option String) (maxDepth : Nat) :
    Option (Except String ResMap) :=
  bfsLoop db query maxDepth (bfsFuel db maxDepth)
    { visited := [], level := 0, result := [(0, [])], q := [some startH, none] }

/-- GraphDB.graphQuery: resolve the start node by id, then delegate to
    bfs. -/
def GraphDB.graphQuery (db : GraphDB) (nodeQualifier : String) (query : Option String)
    (maxDepth : Nat) : Option (Except String ResMap) :=
  match db.queryById nodeQualifier with
  | .error e => some (.error e)
  | .ok h => db.bfs h query maxDepth

/-- State-threaded rendering of GraphDB.query: every branch of the
    source performs reads only, so each returns the incoming store. -/
def GraphDB.queryOp (db : GraphDB) (queryQualifier : Option String) :
    Except String (List Nat) × GraphDB :=
  match queryQualifier with
  | none => (.ok db.nodeSet, db)
  | some qs =>
    match parseQueryQualifier qs with
    | .error e => (.error e, db)
    | .ok (label, key, value) => (.ok (db.lookupSet label key value), db)

/-- State-threaded rendering of GraphDB.queryById. -/
def GraphDB.queryByIdOp (db : GraphDB) (q : String) : Except String Nat × GraphDB :=
  (db.queryById q, db)

/-- State-threaded rendering of GraphDB.bfs: the loop reads node
    records and writes only its local state. -/
def GraphDB.bfsOp (db : GraphDB) (startH : Nat) (query : Option String) (maxDepth : Nat) :
    Option (Except String ResMap) × GraphDB :=
  (db.bfs startH query maxDepth, db)

/-- State-threaded rendering of GraphDB.graphQuery. -/
def GraphDB.graphQueryOp (db : GraphDB) (nodeQualifier : String) (query : Option String)
    (maxDepth : Nat) : Option (Except String ResMap) × GraphDB :=
  match db.queryById nodeQualifier with
  | .error e => (some (.error e), db)
  | .ok h => (db.bfs h query maxDepth, db)

/-! Basic lemmas about the dictionary, set and arena helpers. -/

theorem dget_dput_self {α β : Type} [DecidableEq α] (d : List (α × β)) (k : α) (v : β) :
    dget (dput d k v) k = some v := by
  induction d with
  | nil => simp [dget, dput]
  | cons p rest ih =>
    by_cases h : p.1 = k
    · simp [dput, dget, h]
    · simp [dput, dget, h, ih]

theorem dget_dput_ne {α β : Type} [DecidableEq α] (d : List (α × β)) (k k' : α) (v : β)
    (h : k ≠ k') : dget (dput d k v) k' = dget d k' := by
  induction d with
  | nil => simp [dget, dput, h]
  | cons p rest ih =>
    by_cases hp : p.1 = k
    · simp [dput, dget, hp, h]
    · simp [dput, dget, hp, ih]

theorem dput_dget_self {α β : Type} [DecidableEq α] (d : List (α × β)) (k : α) (v : β)
    (h : dget d k = some v) : dput d k v = d := by
  induction d with
  | nil => simp [dget] at h
  | cons p rest ih =>
    by_cases hp : p.1 = k
    · simp [dget, hp] at h
      cases p
      simp_all [dput]
    · simp [dget, hp] at h
      simp [dput, hp, ih h]

theorem mem_setAdd {α : Type} [DecidableEq α] (s : List α) (x y : α) :
    y ∈ setAdd s x ↔ y ∈ s ∨ y = x := by
  by_cases h : x ∈ s
  · simp only [setAdd, if_pos h]
    constructor
    · exact fun hy => Or.inl hy
    · rintro (hy | rfl) <;> assumption
  · simp [setAdd, if_neg h]

theorem setAdd_of_mem {α : Type} [DecidableEq α] {s : List α} {x : α} (h : x ∈ s) :
    setAdd s x = s := by simp [setAdd, h]

theorem setAdd_of_not_mem {α : Type} [DecidableEq α] {s : List α} {x : α} (h : x ∉ s) :
    setAdd s x = s ++ [x] := by simp [setAdd, h]

theorem self_mem_setAdd {α : Type} [DecidableEq α] (s : List α) (x : α) :
    x ∈ setAdd s x := by simp [mem_setAdd]

theorem mem_of_mem_setAdd_ne {α : Type} [DecidableEq α] {s : List α} {x y : α}
    (h : y ∈ setAdd s x) (hne : y ≠ x) : y ∈ s := by
  rcases (mem_setAdd s x y).1 h with h' | h'
  · exact h'
  · exact absurd h' hne

theorem lset_length {α : Type} (l : List α) (i : Nat) (v : α) :
    (lset l i v).length = l.length := by
  induction l generalizing i with
  | nil => simp [lset]
  | cons x xs ih =>
    cases i with
    | zero => simp [lset]
    | succ n => simp [lset, ih]

theorem lget_lset_self {α : Type} [Inhabited α] (l : List α) (i : Nat) (v : α)
    (h : i < l.length) : lget (lset l i v) i = v := by
  induction l generalizing i with
  | nil => simp at h
  | cons x xs ih =>
    cases i with
    | zero => simp [lset, lget]
    | succ n =>
      simp only [lset, lget]
      exact ih n (by simpa using h)

theorem lget_lset_ne {α : Type} [Inhabited α] (l : List α) (i j : Nat) (v : α)
    (h : i ≠ j) : lget (lset l i v) j = lget l j := by
  induction l generalizing i j with
  | nil => simp [lset]
  | cons x xs ih =>
    cases i with
    | zero =>
      cases j with
      | zero => exact absurd rfl h
      | succ m => simp [lset, lget]
    | succ n =>
      cases j with
      | zero => simp [lset, lget]
      | succ m =>
        simp only [lset, lget]
        exact ih n m (by omega)

theorem lset_lget_self {α : Type} [Inhabited α] (l : List α) (i : Nat) :
    lset l i (lget l i) = l := by
  induction l generalizing i with
  | nil => simp [lset]
  | cons x xs ih =>
    cases i with
    | zero => simp [lset, lget]
    | succ n => simp [lset, lget, ih]

theorem lget_append_left {α : Type} [Inhabited α] (l1 l2 : List α) (i : Nat)
    (h : i < l1.length) : lget (l1 ++ l2) i = lget l1 i := by
  induction l1 generalizing i with
  | nil => simp at h
  | cons x xs ih =>
    cases i with
    | zero => simp [lget]
    | succ n =>
      simp only [List.cons_append, lget]
      exact ih n (by simpa using h)

theorem lget_concat_self {α : Type} [Inhabited α] (l : List α) (v : α) :
    lget (l ++ [v]) l.length = v := by
  induction l with
  | nil => simp [lget]
  | cons x xs ih => simpa [lget] using ih

theorem lget_oob {α : Type} [Inhabited α] (l : List α) (i : Nat)
    (h : l.length ≤ i) : lget l i = default := by
  induction l generalizing i with
  | nil => simp [lget]
  | cons x xs ih =>
    cases i with
    | zero => simp at h
    | succ n =>
      simp only [lget]
      exact ih n (by simpa using h)

theorem splitCharList_ne_nil (sep : Char) (l : List Char) : splitCharList sep l ≠ [] := by
  induction l with
  | nil => simp [splitCharList]
  | cons c rest ih =>
    simp only [splitCharList]
    by_cases h : c = sep
    · simp [h]
    · simp only [if_neg h]
      cases hr : splitCharList sep rest with
      | nil => simp
      | cons a b => simp

theorem pySplit_ne_nil (s : String) (sep : Char) : pySplit s sep ≠ [] := by
  simp only [pySplit, ne_eq, List.map_eq_nil]
  exact splitCharList_ne_nil sep s.data

/-! Parser characterisation. -/

theorem parseQueryClause_error_iff (c : String) :
    parseQueryClause c = .error "Invalid Query" ↔ 2 < (pySplit c '=').length := by
  rcases hps : pySplit c '=' with _ | ⟨k, _ | ⟨v, _ | ⟨w, rest⟩⟩⟩
  · exact absurd hps (pySplit_ne_nil c '=')
  · simp [parseQueryClause, hps]
  · simp [parseQueryClause, hps]
  · simp [parseQueryClause, hps]

/-- C9: parseQueryQualifier fails with the syntax error exactly when the
    qualifier has more than one colon separator or its clause has more
    than one equals separator; a bare label yields (label, none, none);
    a clause without equals is the implicit id key with the clause text
    as value; a key equals value clause yields that pair. -/
theorem C9_qualifier_grammar :
    (∀ Q : String, (parseQueryQualifier Q = .error "Invalid Query" ↔
        2 < (pySplit Q ':').length ∨
        (∃ l c, pySplit Q ':' = [l, c] ∧ 2 < (pySplit c '=').length)))
    ∧ (∀ (Q l : String), pySplit Q ':' = [l] →
        parseQueryQualifier Q = .ok (l, none, none))
    ∧ (∀ (Q l c v : String), pySplit Q ':' = [l, c] → pySplit c '=' = [v] →
        parseQueryQualifier Q = .ok (l, some "id", some v))
    ∧ (∀ (Q l c k v : String), pySplit Q ':' = [l, c] → pySplit c '=' = [k, v] →
        parseQueryQualifier Q = .ok (l, some k, some v)) := by
  refine ⟨?_, ?_, ?_, ?_⟩
  · intro Q
    rcases hps : pySplit Q ':' with _ | ⟨l, _ | ⟨c, _ | ⟨d, rest⟩⟩⟩
    · exact absurd hps (pySplit_ne_nil Q ':')
    · simp [parseQueryQualifier, hps]
    · have hgd : (([l, c] : List String).getD 1 "") = c := rfl
      have hgd0 : (([l, c] : List String).getD 0 "") = l := rfl
      simp only [parseQueryQualifier, hps, List.length_cons, List.length_nil, hgd, hgd0]
      constructor
      · intro h
        rcases hcl : parseQueryClause c with e | kv
        · right
          have hlen := (parseQueryClause_error_iff c).1 ?_
          · exact ⟨l, c, rfl, hlen⟩
          · rcases hcl' : pySplit c '=' with _ | ⟨k, _ | ⟨v, _ | ⟨w, rest⟩⟩⟩
            · exact absurd hcl' (pySplit_ne_nil c '=')
            · simp [parseQueryClause, hcl'] at hcl
            · simp [parseQueryClause, hcl'] at hcl
            · simp [parseQueryClause, hcl']
        · rcases kv with ⟨k, v⟩
          simp [hcl] at h
      · intro h
        rcases h with h | ⟨l', c', heq, h⟩
        · simp at h
        · injection heq with heq1 heq2
          injection heq2 with heq2 _
          subst heq2
          have : parseQueryClause c = .error "Invalid Query" :=
            (parseQueryClause_error_iff c).2 h
          simp [this]
    · simp only [parseQueryQualifier, hps, List.length_cons]
      have h2 : ¬ rest.length + 1 + 1 + 1 = 2 := by omega
      have h1 : ¬ rest.length + 1 + 1 + 1 = 1 := by omega
      simp only [h1, h2, if_false]
      constructor
      · intro _
        left
        omega
      · intro _
        trivial
  · intro Q l h
    simp [parseQueryQualifier, h]
  · intro Q l c v h hc
    simp [parseQueryQualifier, h, parseQueryClause, hc]
  · intro Q l c k v h hc
    have hne : ¬ (pySplit c '=').length = 1 := by rw [hc]; simp
    simp [parseQueryQualifier, h, parseQueryClause, hc, hne]

/-- Witness for C9 at concrete qualifiers. -/
theorem C9_qualifier_grammar_witness :
    parseQueryQualifier "Person" = .ok ("Person", none, none)
    ∧ parseQueryQualifier "Person:eljo" = .ok ("Person", some "id", some "eljo")
    ∧ parseQueryQualifier "Person:gender=Male" =
        .ok ("Person", some "gender", some "Male")
    ∧ (parseQueryQualifier "a:b:c" = .error "Invalid Query" ↔
        2 < (pySplit "a:b:c" ':').length ∨
        (∃ l c, pySplit "a:b:c" ':' = [l, c] ∧ 2 < (pySplit c '=').length)) :=
  ⟨C9_qualifier_grammar.2.1 "Person" "Person" (by decide),
   C9_qualifier_grammar.2.2.1 "Person:eljo" "Person" "eljo" "eljo" (by decide) (by decide),
   C9_qualifier_grammar.2.2.2 "Person:gender=Male" "Person" "gender=Male" "gender" "Male"
     (by decide) (by decide),
   C9_qualifier_grammar.1 "a:b:c"⟩

/-! Connection lemmas. -/

theorem addConnection_spec (db : GraphDB) (h1 h2 : Nat) (hne : ¬ h2 = h1)
    (hl1 : h1 < db.nodes.length) (hl2 : h2 < db.nodes.length) :
    ∃ db1, db.addConnection h1 h2 = .ok db1 ∧
      nodeAt db1 h1 =
        { nodeAt db h1 with connections := setAdd (nodeAt db h1).connections h2 } ∧
      nodeAt db1 h2 =
        { nodeAt db h2 with connections := setAdd (nodeAt db h2).connections h1 } ∧
      db1.nodes.length = db.nodes.length := by
  simp only [GraphDB.addConnection, if_neg hne]
  refine ⟨_, rfl, ?_, ?_, ?_⟩
  · simp only [nodeAt]
    rw [lget_lset_ne _ h2 h1 _ hne, lget_lset_self _ h1 _ hl1]
  · simp only [nodeAt]
    rw [lget_lset_self _ h2 _ (by rw [lset_length]; exact hl2),
        lget_lset_ne _ h1 h2 _ (fun h => hne h.symm)]
  · simp only
    rw [lset_length, lset_length]

theorem addConnection_noop (db : GraphDB) (h1 h2 : Nat) (hne : ¬ h2 = h1)
    (m1 : h2 ∈ (lget db.nodes h1).connections)
    (m2 : h1 ∈ (lget db.nodes h2).connections) :
    db.addConnection h1 h2 = .ok db := by
  simp only [GraphDB.addConnection, if_neg hne]
  rw [setAdd_of_mem m1]
  have e1 : ({ lget db.nodes h1 with
      connections := (lget db.nodes h1).connections } : Node) = lget db.nodes h1 := rfl
  rw [e1, lset_lget_self]
  rw [setAdd_of_mem m2]
  have e2 : ({ lget db.nodes h2 with
      connections := (lget db.nodes h2).connections } : Node) = lget db.nodes h2 := rfl
  rw [e2, lset_lget_self]

/-- C5: for two distinct stored nodes, a successful addConnection makes
    the connection mutual, and repeating the call in either order
    returns the store completely unchanged. -/
theorem C5_connect_symmetric_idempotent :
    ∀ (db : GraphDB) (h1 h2 : Nat), h1 ≠ h2 →
      h1 < db.nodes.length → h2 < db.nodes.length →
      ∃ db1, db.addConnection h1 h2 = .ok db1 ∧
        h2 ∈ (nodeAt db1 h1).connections ∧
        h1 ∈ (nodeAt db1 h2).connections ∧
        db1.addConnection h1 h2 = .ok db1 ∧
        db1.addConnection h2 h1 = .ok db1 := by
  intro db h1 h2 hne hl1 hl2
  obtain ⟨db1, hok, hA, hB, hlen⟩ :=
    addConnection_spec db h1 h2 (fun h => hne h.symm) hl1 hl2
  have m1 : h2 ∈ (nodeAt db1 h1).connections := by
    rw [hA]; exact self_mem_setAdd _ h2
  have m2 : h1 ∈ (nodeAt db1 h2).connections := by
    rw [hB]; exact self_mem_setAdd _ h1
  exact ⟨db1, hok, m1, m2,
    addConnection_noop db1 h1 h2 (fun h => hne h.symm) m1 m2,
    addConnection_noop db1 h2 h1 (fun h => hne h) m2 m1⟩

/-- Two-node store used by concrete witnesses. -/
def pairDB : GraphDB := ((emptyDB.addNode "Person" "A").2.addNode "Person" "B").2

/-- Witness for C5 on a concrete two-node store. -/
theorem C5_connect_symmetric_idempotent_witness :
    ∃ db1, pairDB.addConnection 0 1 = .ok db1 ∧
      1 ∈ (nodeAt db1 0).connections ∧
      0 ∈ (nodeAt db1 1).connections ∧
      db1.addConnection 0 1 = .ok db1 ∧
      db1.addConnection 1 0 = .ok db1 :=
  C5_connect_symmetric_idempotent pairDB 0 1 (by decide) (by decide) (by decide)

/-! Failure atomicity and read-only queries. -/

deriving instance DecidableEq for Except

/-- C6: whenever a store operation raises, the returned store is
    exactly the store the operation was called on; in the source every
    raise happens before the first mutating statement, and the
    state-threaded translation returns the incoming store on every
    error path. -/
theorem C6_failed_ops_leave_store_unchanged :
    (∀ (db : GraphDB) (l i e : String),
      (db.addNode l i).1 = .error e → (db.addNode l i).2 = db)
    ∧ (∀ (db : GraphDB) (q n v e : String),
      (db.addOrUpdateNodeProperty q n v).1 = .error e →
        (db.addOrUpdateNodeProperty q n v).2 = db)
    ∧ (∀ (db : GraphDB) (q1 q2 e : String),
      (db.connect q1 q2).1 = .error e → (db.connect q1 q2).2 = db)
    ∧ (∀ (db : GraphDB) (q : String) (e : String),
      (db.queryByIdOp q).1 = .error e → (db.queryByIdOp q).2 = db)
    ∧ (∀ (db : GraphDB) (q : Option String) (e : String),
      (db.queryOp q).1 = .error e → (db.queryOp q).2 = db)
    ∧ (∀ (db : GraphDB) (nq : String) (q : Option String) (d : Nat) (e : String),
      (db.graphQueryOp nq q d).1 = some (.error e) → (db.graphQueryOp nq q d).2 = db) := by
  refine ⟨?_, ?_, ?_, ?_, ?_, ?_⟩
  · intro db l i e h
    simp only [GraphDB.addNode] at h ⊢
    cases hc : db.throwIfNodeAlreadyExists db.nodes.length (Node.new i l) <;>
      simp [hc] at h ⊢
  · intro db q n v e h
    simp only [GraphDB.addOrUpdateNodeProperty] at h ⊢
    cases hc : db.queryById q with
    | error e' => simp [hc]
    | ok hh =>
      cases hp : (lget db.nodes hh).addOrUpdateProperty n v <;> simp [hc, hp] at h ⊢
  · intro db q1 q2 e h
    simp only [GraphDB.connect] at h ⊢
    cases hc1 : db.queryById q1 with
    | error e' => simp [hc1]
    | ok n1 =>
      cases hc2 : db.queryById q2 with
      | error e' => simp [hc1, hc2]
      | ok n2 =>
        cases hc3 : db.addConnection n1 n2 <;> simp [hc1, hc2, hc3] at h ⊢
  · intro db q e h
    rfl
  · intro db q e h
    cases q with
    | none => rfl
    | some qs =>
      simp only [GraphDB.queryOp]
      cases hp : parseQueryQualifier qs with
      | error e' => rfl
      | ok t => rcases t with ⟨l, k, v⟩; rfl
  · intro db nq q d e h
    simp only [GraphDB.graphQueryOp]
    cases hc : db.queryById nq with
    | error e' => rfl
    | ok hh => rfl

/-- Witness for C6 on concrete failing calls: a self connection, an
    update of the reserved id property, and a lookup of a node that is
    not stored. -/
theorem C6_failed_ops_leave_store_unchanged_witness :
    (pairDB.connect "Person:A" "Person:A").2 = pairDB
    ∧ (pairDB.addOrUpdateNodeProperty "Person:A" "id" "zz").2 = pairDB
    ∧ (pairDB.addOrUpdateNodeProperty "Person:Z" "x" "y").2 = pairDB :=
  ⟨C6_failed_ops_leave_store_unchanged.2.2.1 pairDB "Person:A" "Person:A"
      "Cannot connect onself." (by decide),
   C6_failed_ops_leave_store_unchanged.2.1 pairDB "Person:A" "id" "zz"
      "Reserved property id cannot be added/updated." (by decide),
   C6_failed_ops_leave_store_unchanged.2.1 pairDB "Person:Z" "x" "y"
      "No nodes of type Person found" (by decide)⟩

/-- C10: the query operations are read-only: the state-threaded
    renderings of query, queryById, bfs and graphQuery return the store
    they were given, on success and on failure alike. -/
theorem C10_queries_read_only :
    (∀ (db : GraphDB) (q : Option String), (db.queryOp q).2 = db)
    ∧ (∀ (db : GraphDB) (q : String), (db.queryByIdOp q).2 = db)
    ∧ (∀ (db : GraphDB) (s : Nat) (q : Option String) (d : Nat),
        (db.bfsOp s q d).2 = db)
    ∧ (∀ (db : GraphDB) (nq : String) (q : Option String) (d : Nat),
        (db.graphQueryOp nq q d).2 = db) := by
  refine ⟨?_, ?_, ?_, ?_⟩
  · intro db q
    cases q with
    | none => rfl
    | some qs =>
      simp only [GraphDB.queryOp]
      cases hp : parseQueryQualifier qs with
      | error e => rfl
      | ok t => rcases t with ⟨l, k, v⟩; rfl
  · intro db q
    rfl
  · intro db s q d
    rfl
  · intro db nq q d
    simp only [GraphDB.graphQueryOp]
    cases hc : db.queryById nq with
    | error e => rfl
    | ok h => rfl

/-! Concrete stores exhibiting the duplicate-insertion behaviour and
    the breadth-first traversal. -/

def dupStep1 : Except String Unit × GraphDB := emptyDB.addNode "Person" "eljo"

def dupStep2 : Except String Unit × GraphDB := dupStep1.2.addNode "Person" "eljo"

/-- C1: the duplicate check never fires. After a successful
    addNode Person eljo, a second addNode with the same label and id
    also returns successfully instead of raising, and the id index set
    for Person eljo then holds two distinct node handles; queryById
    still returns a node whose id property is eljo. -/
theorem C1_duplicate_addNode_succeeds :
    dupStep1.1 = .ok ()
    ∧ dupStep2.1 = .ok ()
    ∧ dupStep2.2.lookupSet "Person" (some "id") (some "eljo") = [0, 1]
    ∧ dupStep2.2.queryById "Person:eljo" = .ok 0
    ∧ dget (nodeAt dupStep2.2 0).properties "id" = some "eljo" := by
  refine ⟨rfl, rfl, rfl, rfl, rfl⟩

/-- C4: after the two insertions of C1 the store holds two distinct
    nodes, handles 0 and 1, both in the node set, both labelled Person
    and both with id eljo, so at most one node per label and id does
    not hold; queryById Person eljo answers with the first element of
    the id index set. -/
theorem C4_duplicate_nodes_break_uniqueness :
    0 ∈ dupStep2.2.nodeSet
    ∧ 1 ∈ dupStep2.2.nodeSet
    ∧ (nodeAt dupStep2.2 0).label = "Person"
    ∧ (nodeAt dupStep2.2 1).label = "Person"
    ∧ dget (nodeAt dupStep2.2 0).properties "id" = some "eljo"
    ∧ dget (nodeAt dupStep2.2 1).properties "id" = some "eljo"
    ∧ dupStep2.2.queryById "Person:eljo" = .ok 0 := by
  refine ⟨by decide, by decide, rfl, rfl, rfl, rfl, rfl⟩

/-- The chain store A to B to C used by the traversal claims. -/
def chainDB : GraphDB :=
  let d := (emptyDB.addNode "Person" "A").2
  let d := (d.addNode "Person" "B").2
  let d := (d.addNode "Person" "C").2
  let d := (d.connect "Person:A" "Person:B").2
  let d := (d.connect "Person:B" "Person:C").2
  d

/-- C3 counterexample: on the chain A B C (handles 0 1 2), graphQuery
    from A with maxDepth 1 returns a mapping that contains the level
    key 2 with an empty set, because the loop registers the next level
    key before the depth guard stops it; the claim says no level key
    beyond 1 is present. -/
theorem C3_counterexample_extra_level_key :
    chainDB.graphQuery "Person:A" none 1 = some (.ok [(0, [0]), (1, [1]), (2, [])]) := by
  rfl

/-- C3 amended: graphQuery from A with maxDepth 2 yields levels 0, 1, 2
    holding exactly A, B, C; with maxDepth 1 it yields A at level 0 and
    B at level 1 together with an empty level 2 entry, C appearing
    nowhere; no node beyond maxDepth is ever included. -/
theorem C3_chain_bfs_levels :
    chainDB.graphQuery "Person:A" none 2 = some (.ok [(0, [0]), (1, [1]), (2, [2])])
    ∧ chainDB.graphQuery "Person:A" none 1 = some (.ok [(0, [0]), (1, [1]), (2, [])]) := by
  refine ⟨rfl, rfl⟩

/-! Breadth-first search: filter simulation. -/

theorem enqChildren_spec (cs : List Nat) (q : List (Option Nat)) (vv : List Nat) :
    ∃ new : List Nat,
      (enqChildren cs q vv).1 = q ++ new.map some ∧
      (enqChildren cs q vv).2 = vv ++ new ∧
      new.Nodup ∧
      (∀ c ∈ new, c ∈ cs ∧ c ∉ vv) ∧
      (∀ c ∈ cs, c ∈ vv ∨ c ∈ new) := by
  induction cs generalizing q vv with
  | nil => exact ⟨[], by simp [enqChildren], by simp [enqChildren], by simp, by simp, by simp⟩
  | cons c cs' ih =>
    by_cases hc : c ∈ vv
    · obtain ⟨new, h1, h2, h3, h4, h5⟩ := ih q vv
      refine ⟨new, ?_, ?_, h3, ?_, ?_⟩
      · simpa [enqChildren, hc] using h1
      · simpa [enqChildren, hc] using h2
      · intro x hx
        exact ⟨List.mem_cons_of_mem _ (h4 x hx).1, (h4 x hx).2⟩
      · intro x hx
        rcases List.mem_cons.1 hx with rfl | hx'
        · exact Or.inl hc
        · exact h5 x hx'
    · obtain ⟨new', h1, h2, h3, h4, h5⟩ := ih (q ++ [some c]) (vv ++ [c])
      have hset : setAdd vv c = vv ++ [c] := setAdd_of_not_mem hc
      refine ⟨c :: new', ?_, ?_, ?_, ?_, ?_⟩
      · rw [enqChildren, if_neg hc, hset, h1, List.append_assoc]
        rfl
      · rw [enqChildren, if_neg hc, hset, h2, List.append_assoc]
        rfl
      · refine List.nodup_cons.2 ⟨?_, h3⟩
        intro hmem
        have := (h4 c hmem).2
        simp at this
      · intro x hx
        rcases List.mem_cons.1 hx with rfl | hx'
        · exact ⟨List.mem_cons_self _ _, hc⟩
        · have := h4 x hx'
          refine ⟨List.mem_cons_of_mem _ this.1, ?_⟩
          intro hxv
          exact this.2 (by simp [hxv])
      · intro x hx
        rcases List.mem_cons.1 hx with rfl | hx'
        · exact Or.inr (List.mem_cons_self _ _)
        · rcases h5 x hx' with hv | hn
          · rcases List.mem_append.1 hv with hv' | hv'
            · exact Or.inl hv'
            · simp at hv'
              exact Or.inr (by simp [hv'])
          · exact Or.inr (List.mem_cons_of_mem _ hn)

/-- Boolean form of the single-clause filter on a stored node. -/
def matchesClause (db : GraphDB) (qs : String) (h : Nat) : Bool :=
  match doesNodeMatchQuery (lget db.nodes h) qs with
  | .ok true => true
  | _ => false

theorem doesNodeMatchQuery_eq_matchesClause (db : GraphDB) (qs k v : String) (h : Nat)
    (hq : parseQueryClause qs = .ok (k, v)) :
    doesNodeMatchQuery (lget db.nodes h) qs = .ok (matchesClause db qs h) := by
  simp only [matchesClause, doesNodeMatchQuery, hq]
  cases dget (lget db.nodes h).properties k with
  | none => rfl
  | some w => cases hb : (w == v) <;> simp [hb]

/-- Per-level filtering: level 0 is kept whole, deeper levels keep the
    nodes matching the clause. -/
def levelFilter (db : GraphDB) (qs : String) (lvl : Nat) (l : List Nat) : List Nat :=
  if lvl = 0 then l else l.filter (fun h => matchesClause db qs h)

/-- Result-map filtering applied levelwise. -/
def filterRes (db : GraphDB) (qs : String) (r : ResMap) : ResMap :=
  r.map (fun p => (p.1, levelFilter db qs p.1 p.2))

theorem dget_mapval {α β : Type} [DecidableEq α] (g : α → β → β) (r : List (α × β)) (k : α) :
    dget (r.map (fun p => (p.1, g p.1 p.2))) k = (dget r k).map (g k) := by
  induction r with
  | nil => rfl
  | cons p rest ih =>
    by_cases h : p.1 = k <;> simp [dget, h, ih]

theorem dput_mapval {α β : Type} [DecidableEq α] (g : α → β → β) (r : List (α × β))
    (k : α) (v : β) :
    (dput r k v).map (fun p => (p.1, g p.1 p.2)) =
      dput (r.map (fun p => (p.1, g p.1 p.2))) k (g k v) := by
  induction r with
  | nil => rfl
  | cons p rest ih =>
    by_cases h : p.1 = k <;> simp [dput, h, ih]

theorem filterRes_dput (db : GraphDB) (qs : String) (r : ResMap) (k : Nat) (v : List Nat) :
    filterRes db qs (dput r k v) = dput (filterRes db qs r) k (levelFilter db qs k v) := by
  simp only [filterRes]
  exact dput_mapval _ r k v

theorem dget_filterRes (db : GraphDB) (qs : String) (r : ResMap) (k : Nat) :
    dget (filterRes db qs r) k = (dget r k).map (levelFilter db qs k) := by
  simp only [filterRes]
  exact dget_mapval _ r k

theorem bfsLoop_sim (db : GraphDB) (qs k v : String) (d : Nat)
    (hq : parseQueryClause qs = .ok (k, v)) :
    ∀ (fuel : Nat) (vv : List Nat) (lvl : Nat) (rU : ResMap) (qU : List (Option Nat)),
      (dget rU lvl).isSome = true →
      bfsLoop db (some qs) d fuel ⟨vv, lvl, filterRes db qs rU, qU⟩ =
        (bfsLoop db none d fuel ⟨vv, lvl, rU, qU⟩).map (Except.map (filterRes db qs)) := by
  intro fuel
  induction fuel with
  | zero => intro vv lvl rU qU _; rfl
  | succ n ih =>
    intro vv lvl rU qU hsome
    obtain ⟨oldU, holdU⟩ := Option.isSome_iff_exists.mp hsome
    cases qU with
    | nil => simp [bfsLoop, Except.map]
    | cons qh rest =>
      by_cases hguard : d < lvl
      · simp [bfsLoop, hguard, Except.map]
      · cases qh with
        | none =>
          cases rest with
          | nil => simp [bfsLoop, hguard, Except.map]
          | cons rh rest2 =>
            cases rh with
            | none => simp [bfsLoop, hguard, Except.map]
            | some c =>
              simp only [bfsLoop, hguard, if_false]
              have hlf : levelFilter db qs (lvl + 1) [] = [] := by simp [levelFilter]
              have hrw : dput (filterRes db qs rU) (lvl + 1) [] =
                  filterRes db qs (dput rU (lvl + 1) []) := by
                rw [filterRes_dput, hlf]
              rw [hrw]
              exact ih vv (lvl + 1) (dput rU (lvl + 1) []) _
                (by simp [dget_dput_self])
        | some h =>
          simp only [bfsLoop, hguard, if_false]
          by_cases hl0 : lvl = 0
          · subst hl0
            simp only [if_pos rfl, if_true]
            have hgF : dget (filterRes db qs rU) 0 = some oldU := by
              rw [dget_filterRes, holdU]
              simp [levelFilter]
            have hrw : dput (filterRes db qs rU) 0 ((dget (filterRes db qs rU) 0).getD [] ++ [h]) =
                filterRes db qs (dput rU 0 ((dget rU 0).getD [] ++ [h])) := by
              rw [filterRes_dput, hgF, holdU]
              simp [levelFilter]
            rw [hrw]
            exact ih _ 0 _ _ (by simp [dget_dput_self])
          · rw [if_neg hl0]
            rw [doesNodeMatchQuery_eq_matchesClause db qs k v h hq]
            have hgF : dget (filterRes db qs rU) lvl =
                some (levelFilter db qs lvl oldU) := by
              rw [dget_filterRes, holdU]
              rfl
            cases hm : matchesClause db qs h
            · have hrw : filterRes db qs rU =
                  filterRes db qs (dput rU lvl ((dget rU lvl).getD [] ++ [h])) := by
                rw [filterRes_dput, holdU]
                simp only [Option.getD_some]
                have hstep : levelFilter db qs lvl (oldU ++ [h]) =
                    levelFilter db qs lvl oldU := by
                  simp [levelFilter, hl0, List.filter_append, hm]
                rw [hstep, dput_dget_self _ _ _ hgF]
              rw [hrw]
              apply ih
              simp [dget_dput_self]
            · have hrw : dput (filterRes db qs rU) lvl
                    ((dget (filterRes db qs rU) lvl).getD [] ++ [h]) =
                  filterRes db qs (dput rU lvl ((dget rU lvl).getD [] ++ [h])) := by
                rw [filterRes_dput, hgF, holdU]
                simp only [Option.getD_some]
                have hstep : levelFilter db qs lvl (oldU ++ [h]) =
                    levelFilter db qs lvl oldU ++ [h] := by
                  simp [levelFilter, hl0, List.filter_append, hm]
                rw [hstep]
              rw [hrw]
              apply ih
              simp [dget_dput_self]

/-! One-step unfolding lemmas for the bfs loop. -/

theorem bfsLoop_nil (db : GraphDB) (q : Option String) (d n : Nat) (vv : List Nat)
    (lvl : Nat) (res : ResMap) :
    bfsLoop db q d (n + 1) ⟨vv, lvl, res, []⟩ = some (.ok res) := rfl

theorem bfsLoop_stop_guard (db : GraphDB) (q : Option String) (d n : Nat) (vv : List Nat)
    (lvl : Nat) (res : ResMap) (qh : Option Nat) (rest : List (Option Nat))
    (hguard : d < lvl) :
    bfsLoop db q d (n + 1) ⟨vv, lvl, res, qh :: rest⟩ = some (.ok res) := by
  simp only [bfsLoop, if_pos hguard]

theorem bfsLoop_stop_marker_nil (db : GraphDB) (q : Option String) (d n : Nat)
    (vv : List Nat) (lvl : Nat) (res : ResMap) (hguard : ¬ d < lvl) :
    bfsLoop db q d (n + 1) ⟨vv, lvl, res, [none]⟩ = some (.ok res) := by
  simp only [bfsLoop, if_neg hguard]

theorem bfsLoop_stop_marker_marker (db : GraphDB) (q : Option String) (d n : Nat)
    (vv : List Nat) (lvl : Nat) (res : ResMap) (rest : List (Option Nat))
    (hguard : ¬ d < lvl) :
    bfsLoop db q d (n + 1) ⟨vv, lvl, res, none :: none :: rest⟩ = some (.ok res) := by
  simp only [bfsLoop, if_neg hguard]

theorem bfsLoop_step_marker (db : GraphDB) (q : Option String) (d n : Nat)
    (vv : List Nat) (lvl : Nat) (res : ResMap) (c : Nat) (rest2 : List (Option Nat))
    (hguard : ¬ d < lvl) :
    bfsLoop db q d (n + 1) ⟨vv, lvl, res, none :: some c :: rest2⟩ =
      bfsLoop db q d n
        ⟨vv, lvl + 1, dput res (lvl + 1) [], (some c :: rest2) ++ [none]⟩ := by
  simp only [bfsLoop, if_neg hguard]

theorem bfsLoop_step_none (db : GraphDB) (d n : Nat) (vv : List Nat) (lvl : Nat)
    (res : ResMap) (h : Nat) (rest : List (Option Nat)) (hguard : ¬ d < lvl) :
    bfsLoop db none d (n + 1) ⟨vv, lvl, res, some h :: rest⟩ =
      bfsLoop db none d n
        ⟨(enqChildren (lget db.nodes h).connections rest (setAdd vv h)).2, lvl,
          dput res lvl ((dget res lvl).getD [] ++ [h]),
          (enqChildren (lget db.nodes h).connections rest (setAdd vv h)).1⟩ := by
  simp only [bfsLoop, if_neg hguard, if_true]

theorem bfsLoop_step_filter_zero (db : GraphDB) (qs : String) (d n : Nat)
    (vv : List Nat) (res : ResMap) (h : Nat) (rest : List (Option Nat))
    (hguard : ¬ d < 0) :
    bfsLoop db (some qs) d (n + 1) ⟨vv, 0, res, some h :: rest⟩ =
      bfsLoop db (some qs) d n
        ⟨(enqChildren (lget db.nodes h).connections rest (setAdd vv h)).2, 0,
          dput res 0 ((dget res 0).getD [] ++ [h]),
          (enqChildren (lget db.nodes h).connections rest (setAdd vv h)).1⟩ := by
  simp only [bfsLoop, if_neg hguard, if_pos rfl, if_true]

theorem bfsLoop_step_filter_deep (db : GraphDB) (qs : String) (d n : Nat)
    (vv : List Nat) (lvl : Nat) (res : ResMap) (h : Nat) (rest : List (Option Nat))
    (hguard : ¬ d < lvl) (hlvl0 : ¬ lvl = 0) :
    bfsLoop db (some qs) d (n + 1) ⟨vv, lvl, res, some h :: rest⟩ =
      match doesNodeMatchQuery (lget db.nodes h) qs with
      | .error e => some (.error e)
      | .ok inc =>
        bfsLoop db (some qs) d n
          ⟨(enqChildren (lget db.nodes h).connections rest (setAdd vv h)).2, lvl,
            if inc then dput res lvl ((dget res lvl).getD [] ++ [h]) else res,
            (enqChildren (lget db.nodes h).connections rest (setAdd vv h)).1⟩ := by
  simp only [bfsLoop, if_neg hguard, if_neg hlvl0]

theorem bfsLoop_level0_preserved (db : GraphDB) (q : Option String) (d : Nat) (L : List Nat) :
    ∀ (fuel : Nat) (vv : List Nat) (lvl : Nat) (res : ResMap) (qq : List (Option Nat))
      (r : ResMap),
      1 ≤ lvl → dget res 0 = some L →
      bfsLoop db q d fuel ⟨vv, lvl, res, qq⟩ = some (.ok r) → dget r 0 = some L := by
  intro fuel
  induction fuel with
  | zero =>
    intro vv lvl res qq r _ _ hres
    exact absurd hres (by simp [bfsLoop])
  | succ n ih =>
    intro vv lvl res qq r hlvl h0 hres
    cases qq with
    | nil =>
      rw [bfsLoop_nil] at hres
      cases Except.ok.inj (Option.some.inj hres)
      exact h0
    | cons qh rest =>
      by_cases hguard : d < lvl
      · rw [bfsLoop_stop_guard db q d n vv lvl res qh rest hguard] at hres
        cases Except.ok.inj (Option.some.inj hres)
        exact h0
      · cases qh with
        | none =>
          cases rest with
          | nil =>
            rw [bfsLoop_stop_marker_nil db q d n vv lvl res hguard] at hres
            cases Except.ok.inj (Option.some.inj hres)
            exact h0
          | cons rh rest2 =>
            cases rh with
            | none =>
              rw [bfsLoop_stop_marker_marker db q d n vv lvl res rest2 hguard] at hres
              cases Except.ok.inj (Option.some.inj hres)
              exact h0
            | some c =>
              rw [bfsLoop_step_marker db q d n vv lvl res c rest2 hguard] at hres
              refine ih _ _ _ _ _ (by omega) ?_ hres
              rw [dget_dput_ne _ _ _ _ (by omega)]
              exact h0
        | some h =>
          cases q with
          | none =>
            rw [bfsLoop_step_none db d n vv lvl res h rest hguard] at hres
            refine ih _ _ _ _ _ hlvl ?_ hres
            rw [dget_dput_ne _ _ _ _ (by omega)]
            exact h0
          | some qs =>
            rw [bfsLoop_step_filter_deep db qs d n vv lvl res h rest hguard
                (by omega)] at hres
            cases hdm : doesNodeMatchQuery (lget db.nodes h) qs with
            | error e =>
              rw [hdm] at hres
              simp at hres
            | ok inc =>
              rw [hdm] at hres
              cases inc with
              | true =>
                have hres' : bfsLoop db (some qs) d n
                    ⟨(enqChildren (lget db.nodes h).connections rest (setAdd vv h)).2, lvl,
                      dput res lvl ((dget res lvl).getD [] ++ [h]),
                      (enqChildren (lget db.nodes h).connections rest (setAdd vv h)).1⟩ =
                    some (.ok r) := hres
                refine ih _ _ _ _ _ hlvl ?_ hres'
                rw [dget_dput_ne _ _ _ _ (by omega)]
                exact h0
              | false =>
                have hres' : bfsLoop db (some qs) d n
                    ⟨(enqChildren (lget db.nodes h).connections rest (setAdd vv h)).2, lvl,
                      res,
                      (enqChildren (lget db.nodes h).connections rest (setAdd vv h)).1⟩ =
                    some (.ok r) := hres
                exact ih _ _ _ _ _ hlvl h0 hres'

theorem bfs_level0_entry (db : GraphDB) (s : Nat) (q : Option String) (d : Nat) :
    ∀ (fuel : Nat) (r : ResMap),
      bfsLoop db q d fuel ⟨[], 0, [(0, [])], [some s, none]⟩ = some (.ok r) →
      dget r 0 = some [s] := by
  intro fuel r hres
  cases fuel with
  | zero => exact absurd hres (by simp [bfsLoop])
  | succ n =>
    have hguard : ¬ d < 0 := by omega
    have hstep : bfsLoop db q d (n + 1) ⟨[], 0, [(0, [])], [some s, none]⟩ =
        bfsLoop db q d n
          ⟨(enqChildren (lget db.nodes s).connections [none] (setAdd [] s)).2, 0,
            [(0, [s])],
            (enqChildren (lget db.nodes s).connections [none] (setAdd [] s)).1⟩ := by
      cases q with
      | none => exact bfsLoop_step_none db d n [] 0 [(0, [])] s [none] hguard
      | some qs => exact bfsLoop_step_filter_zero db qs d n [] [(0, [])] s [none] hguard
    rw [hstep] at hres
    obtain ⟨new, e1, e2, _, _, _⟩ :=
      enqChildren_spec (lget db.nodes s).connections [none] (setAdd [] s)
    rw [e1] at hres
    cases n with
    | zero => exact absurd hres (by simp [bfsLoop])
    | succ m =>
      cases new with
      | nil =>
        rw [show ([none] ++ (List.map some []) : List (Option Nat)) = [none] from rfl] at hres
        rw [bfsLoop_stop_marker_nil db q d m _ 0 [(0, [s])] hguard] at hres
        cases Except.ok.inj (Option.some.inj hres)
        rfl
      | cons c new' =>
        rw [show ([none] ++ (List.map some (c :: new')) : List (Option Nat)) =
            none :: some c :: new'.map some from rfl] at hres
        rw [bfsLoop_step_marker db q d m _ 0 [(0, [s])] c (new'.map some) hguard] at hres
        refine bfsLoop_level0_preserved db q d [s] m _ 1 _ _ r (by omega) ?_ hres
        rfl

/-- C7: with a parseable filter clause, the bfs result is exactly the
    unfiltered bfs result with every level beyond zero filtered by the
    clause (a node discovered at a level at least one appears there if
    and only if its properties satisfy the clause, an absent property
    never matching), and for any query the level zero list holds
    exactly the start node. -/
theorem C7_bfs_filter (db : GraphDB) (s : Nat) (qs k v : String) (d : Nat)
    (hq : parseQueryClause qs = .ok (k, v)) :
    db.bfs s (some qs) d = (db.bfs s none d).map (Except.map (filterRes db qs))
    ∧ (∀ (q : Option String) (r : ResMap), db.bfs s q d = some (.ok r) →
        dget r 0 = some [s]) := by
  constructor
  · show bfsLoop db (some qs) d (bfsFuel db d) ⟨[], 0, [(0, [])], [some s, none]⟩ = _
    have hfr : filterRes db qs [(0, [])] = [(0, [])] := by
      simp [filterRes, levelFilter]
    conv_lhs => rw [← hfr]
    exact bfsLoop_sim db qs k v d hq _ [] 0 [(0, [])] [some s, none] rfl
  · intro q r
    exact bfs_level0_entry db s q d _ r

/-- Store with one hub node and two contacts of different gender, used
    by the filter witness. -/
def genderDB : GraphDB :=
  let d := (emptyDB.addNode "Person" "e").2
  let d := (d.addNode "Person" "m").2
  let d := (d.addNode "Person" "n").2
  let d := (d.addOrUpdateNodeProperty "Person:m" "gender" "Female").2
  let d := (d.addOrUpdateNodeProperty "Person:n" "gender" "Male").2
  let d := (d.connect "Person:e" "Person:m").2
  let d := (d.connect "Person:e" "Person:n").2
  d

/-- Witness for C7 on the concrete gender store. -/
theorem C7_bfs_filter_witness :
    genderDB.bfs 0 (some "gender=Female") 3 =
      (genderDB.bfs 0 none 3).map (Except.map (filterRes genderDB "gender=Female"))
    ∧ (∀ (q : Option String) (r : ResMap), genderDB.bfs 0 q 3 = some (.ok r) →
        dget r 0 = some [0]) :=
  C7_bfs_filter genderDB 0 "gender=Female" "gender" "Female" 3 rfl

/-! Termination of the bfs loop. -/

/-- Validity of the connection handles: every stored connection points
    into the arena. -/
def connsValidB (db : GraphDB) : Bool :=
  db.nodes.all (fun n => n.connections.all (fun c => decide (c < db.nodes.length)))

theorem lget_mem {α : Type} [Inhabited α] (l : List α) (i : Nat) (h : i < l.length) :
    lget l i ∈ l := by
  induction l generalizing i with
  | nil => simp at h
  | cons x xs ih =>
    cases i with
    | zero => simp [lget]
    | succ n =>
      simp only [lget]
      exact List.mem_cons_of_mem _ (ih n (by simpa using h))

theorem connsValid_spec (db : GraphDB) (hcv : connsValidB db = true) :
    ∀ (i c : Nat), c ∈ (lget db.nodes i).connections → c < db.nodes.length := by
  intro i c hc
  by_cases hi : i < db.nodes.length
  · have hmem := lget_mem db.nodes i hi
    have := (List.all_eq_true.mp hcv) _ hmem
    have := (List.all_eq_true.mp this) _ hc
    exact of_decide_eq_true this
  · rw [lget_oob db.nodes i (by omega)] at hc
    simp [default] at hc

/-- Count of arena handles not yet visited. -/
def unvis (n : Nat) (v : List Nat) : Nat :=
  ((Finset.range n).filter (fun x => x ∉ v)).card

theorem unvis_nil (n : Nat) : unvis n [] = n := by
  simp [unvis]

theorem unvis_le_setAdd (n : Nat) (v : List Nat) (x : Nat) :
    unvis n (setAdd v x) ≤ unvis n v := by
  apply Finset.card_le_card
  intro y hy
  simp only [Finset.mem_filter, Finset.mem_range] at hy ⊢
  exact ⟨hy.1, fun hmem => hy.2 ((mem_setAdd v x y).2 (Or.inl hmem))⟩

theorem unvis_append_one (n : Nat) (v : List Nat) (c : Nat) (hc : c < n) (hv : c ∉ v) :
    unvis n (v ++ [c]) + 1 = unvis n v := by
  unfold unvis
  have hset : (Finset.range n).filter (fun x => x ∉ v) =
      insert c ((Finset.range n).filter (fun x => x ∉ v ++ [c])) := by
    ext y
    simp only [Finset.mem_filter, Finset.mem_insert, Finset.mem_range, List.mem_append,
      List.mem_singleton]
    constructor
    · rintro ⟨hyn, hyv⟩
      by_cases hyc : y = c
      · exact Or.inl hyc
      · exact Or.inr ⟨hyn, fun hor => by rcases hor with h' | h' <;> [exact hyv h'; exact hyc h']⟩
    · rintro (rfl | ⟨hyn, hyv⟩)
      · exact ⟨hc, hv⟩
      · exact ⟨hyn, fun h' => hyv (Or.inl h')⟩
  rw [hset, Finset.card_insert_of_not_mem]
  simp only [Finset.mem_filter, Finset.mem_range, not_and, not_not]
  intro _
  simp

theorem unvis_append_list (n : Nat) :
    ∀ (new v : List Nat), new.Nodup → (∀ c ∈ new, c < n ∧ c ∉ v) →
      unvis n (v ++ new) + new.length = unvis n v := by
  intro new
  induction new with
  | nil => intro v _ _; simp
  | cons c new' ih =>
    intro v hnd hc
    have hstep := unvis_append_one n v c (hc c (List.mem_cons_self _ _)).1
      (hc c (List.mem_cons_self _ _)).2
    have hrest := ih (v ++ [c]) (List.nodup_cons.1 hnd).2 ?_
    · rw [List.append_cons v c new']
      simp only [List.length_cons]
      omega
    · intro x hx
      refine ⟨(hc x (List.mem_cons_of_mem _ hx)).1, ?_⟩
      intro hxm
      rcases List.mem_append.1 hxm with h' | h'
      · exact (hc x (List.mem_cons_of_mem _ hx)).2 h'
      · simp only [List.mem_singleton] at h'
        exact (List.nodup_cons.1 hnd).1 (h' ▸ hx)

theorem bfsLoop_terminates (db : GraphDB) (q : Option String) (d : Nat)
    (hcv : connsValidB db = true) :
    ∀ (fuel : Nat) (vv : List Nat) (lvl : Nat) (res : ResMap) (qq : List (Option Nat)),
      2 * unvis db.nodes.length vv + qq.length + (d + 2 - lvl) < fuel →
      bfsLoop db q d fuel ⟨vv, lvl, res, qq⟩ ≠ none := by
  intro fuel
  induction fuel with
  | zero =>
    intro vv lvl res qq hm
    omega
  | succ n ih =>
    intro vv lvl res qq hm
    cases qq with
    | nil => rw [bfsLoop_nil]; simp
    | cons qh rest =>
      by_cases hguard : d < lvl
      · rw [bfsLoop_stop_guard db q d n vv lvl res qh rest hguard]; simp
      · cases qh with
        | none =>
          cases rest with
          | nil => rw [bfsLoop_stop_marker_nil db q d n vv lvl res hguard]; simp
          | cons rh rest2 =>
            cases rh with
            | none => rw [bfsLoop_stop_marker_marker db q d n vv lvl res rest2 hguard]; simp
            | some c =>
              rw [bfsLoop_step_marker db q d n vv lvl res c rest2 hguard]
              apply ih
              simp only [List.length_append, List.length_cons, List.length_nil]
              simp only [List.length_cons] at hm
              omega
        | some h =>
          obtain ⟨new, e1, e2, hnd, hfresh, _⟩ :=
            enqChildren_spec (lget db.nodes h).connections rest (setAdd vv h)
          have hnew : ∀ c ∈ new, c < db.nodes.length ∧ c ∉ setAdd vv h := by
            intro c hcn
            exact ⟨connsValid_spec db hcv h c (hfresh c hcn).1, (hfresh c hcn).2⟩
          have hu2 : unvis db.nodes.length (setAdd vv h ++ new) + new.length =
              unvis db.nodes.length (setAdd vv h) :=
            unvis_append_list db.nodes.length new (setAdd vv h) hnd hnew
          have hu1 : unvis db.nodes.length (setAdd vv h) ≤ unvis db.nodes.length vv :=
            unvis_le_setAdd db.nodes.length vv h
          have hmeasure : 2 * unvis db.nodes.length
                ((enqChildren (lget db.nodes h).connections rest (setAdd vv h)).2) +
              ((enqChildren (lget db.nodes h).connections rest (setAdd vv h)).1).length +
              (d + 2 - lvl) < n := by
            rw [e1, e2]
            simp only [List.length_append, List.length_map]
            simp only [List.length_cons] at hm
            omega
          cases q with
          | none =>
            rw [bfsLoop_step_none db d n vv lvl res h rest hguard]
            exact ih _ _ _ _ hmeasure
          | some qs =>
            by_cases hlvl0 : lvl = 0
            · subst hlvl0
              rw [bfsLoop_step_filter_zero db qs d n vv res h rest hguard]
              exact ih _ _ _ _ hmeasure
            · rw [bfsLoop_step_filter_deep db qs d n vv lvl res h rest hguard hlvl0]
              cases hdm : doesNodeMatchQuery (lget db.nodes h) qs with
              | error e => simp
              | ok inc =>
                show bfsLoop db (some qs) d n _ ≠ none
                exact ih _ _ _ _ hmeasure

/-! No node is appended twice across the level lists. -/

/-- Concatenation of all level result lists. -/
def resAll (r : ResMap) : List Nat := (r.map Prod.snd).join

theorem dput_decomp {α β : Type} [DecidableEq α] (r : List (α × β)) (k : α) :
    (dget r k = none ∧ ∀ v, dput r k v = r ++ [(k, v)]) ∨
    (∃ pre old post, r = pre ++ (k, old) :: post ∧ dget r k = some old ∧
      ∀ v, dput r k v = pre ++ (k, v) :: post) := by
  induction r with
  | nil => exact Or.inl ⟨rfl, fun v => rfl⟩
  | cons p rest ih =>
    by_cases hp : p.1 = k
    · right
      refine ⟨[], p.2, rest, ?_, ?_, ?_⟩
      · simp [← hp]
      · simp [dget, hp]
      · intro v
        cases p
        simp_all [dput]
    · rcases ih with ⟨hnone, hput⟩ | ⟨pre, old, post, hr, hget, hput⟩
      · left
        refine ⟨by simp [dget, hp, hnone], fun v => ?_⟩
        cases p
        simp_all [dput]
      · right
        refine ⟨p :: pre, old, post, by rw [hr]; rfl, by simp [dget, hp, hget], fun v => ?_⟩
        cases p
        simp_all [dput]

theorem resAll_append (r1 r2 : ResMap) : resAll (r1 ++ r2) = resAll r1 ++ resAll r2 := by
  simp [resAll]

theorem resAll_cons (p : Nat × List Nat) (r : ResMap) :
    resAll (p :: r) = p.2 ++ resAll r := by
  simp [resAll]

theorem resAll_dput_perm (r : ResMap) (k : Nat) (h : Nat) :
    (resAll (dput r k ((dget r k).getD [] ++ [h]))).Perm (resAll r ++ [h]) := by
  rcases dput_decomp r k with ⟨hnone, hput⟩ | ⟨pre, old, post, hr, hget, hput⟩
  · rw [hput, hnone, resAll_append]
    simp [resAll]
  · rw [hput, hget]
    simp only [Option.getD_some]
    rw [hr]
    rw [resAll_append, resAll_append, resAll_cons, resAll_cons]
    have e1 : resAll pre ++ ((old ++ [h]) ++ resAll post) =
        resAll pre ++ (old ++ ([h] ++ resAll post)) := by
      rw [List.append_assoc]
    have p2 : (resAll pre ++ (old ++ ([h] ++ resAll post))).Perm
        (resAll pre ++ (old ++ (resAll post ++ [h]))) :=
      List.Perm.append_left _ (List.Perm.append_left _ List.perm_append_comm)
    have e3 : resAll pre ++ (old ++ (resAll post ++ [h])) =
        (resAll pre ++ (old ++ resAll post)) ++ [h] := by
      rw [List.append_assoc, List.append_assoc]
    rw [e1, ← e3]
    exact p2

theorem resAll_dput_nil_sublist (r : ResMap) (k : Nat) :
    (resAll (dput r k [])).Sublist (resAll r) := by
  rcases dput_decomp r k with ⟨hnone, hput⟩ | ⟨pre, old, post, hr, hget, hput⟩
  · rw [hput, resAll_append]
    simp [resAll]
  · rw [hput, hr, resAll_append, resAll_append, resAll_cons, resAll_cons]
    simp only [List.nil_append]
    exact (List.sublist_append_right _ _).append_left _

theorem filterMap_id_map_some (l : List Nat) :
    ((l.map (fun x => some x)).filterMap id : List Nat) = l := by
  induction l with
  | nil => rfl
  | cons c t ih => simp_all [List.filterMap_cons]

theorem bfsLoop_nodup (db : GraphDB) (q : Option String) (d : Nat) :
    ∀ (fuel : Nat) (vv : List Nat) (lvl : Nat) (res : ResMap) (qq : List (Option Nat))
      (r : ResMap),
      (qq.filterMap id).Nodup →
      (∀ x ∈ qq.filterMap id, x ∈ vv) →
      (resAll res).Nodup →
      (∀ x ∈ resAll res, x ∈ vv) →
      (∀ x ∈ qq.filterMap id, x ∉ resAll res) →
      bfsLoop db q d fuel ⟨vv, lvl, res, qq⟩ = some (.ok r) →
      (resAll r).Nodup := by
  intro fuel
  induction fuel with
  | zero =>
    intro vv lvl res qq r _ _ _ _ _ hres
    exact absurd hres (by simp [bfsLoop])
  | succ n ih =>
    intro vv lvl res qq r hqnd hqv hrnd hrv hdisj hres
    cases qq with
    | nil =>
      rw [bfsLoop_nil] at hres
      cases Except.ok.inj (Option.some.inj hres)
      exact hrnd
    | cons qh rest =>
      by_cases hguard : d < lvl
      · rw [bfsLoop_stop_guard db q d n vv lvl res qh rest hguard] at hres
        cases Except.ok.inj (Option.some.inj hres)
        exact hrnd
      · cases qh with
        | none =>
          simp only [List.filterMap_cons] at hqnd hqv hdisj
          cases rest with
          | nil =>
            rw [bfsLoop_stop_marker_nil db q d n vv lvl res hguard] at hres
            cases Except.ok.inj (Option.some.inj hres)
            exact hrnd
          | cons rh rest2 =>
            cases rh with
            | none =>
              rw [bfsLoop_stop_marker_marker db q d n vv lvl res rest2 hguard] at hres
              cases Except.ok.inj (Option.some.inj hres)
              exact hrnd
            | some c =>
              rw [bfsLoop_step_marker db q d n vv lvl res c rest2 hguard] at hres
              refine ih _ _ _ _ _ ?_ ?_ ?_ ?_ ?_ hres
              · simpa using hqnd
              · intro x hx
                refine hqv x ?_
                simpa using hx
              · exact (resAll_dput_nil_sublist res (lvl + 1)).nodup hrnd
              · intro x hx
                exact hrv x ((resAll_dput_nil_sublist res (lvl + 1)).mem hx)
              · intro x hx
                intro hmem
                refine hdisj x (by simpa using hx) ?_
                exact (resAll_dput_nil_sublist res (lvl + 1)).mem hmem
        | some h =>
          -- the dequeued node is in the visited set already, so setAdd is a no-op
          simp only [List.filterMap_cons, id] at hqnd hqv hdisj
          have hhv : h ∈ vv := hqv h (List.mem_cons_self _ _)
          have hvv1 : setAdd vv h = vv := setAdd_of_mem hhv
          have hhnotrest : h ∉ rest.filterMap id := (List.nodup_cons.1 hqnd).1
          have hrestnd : (rest.filterMap id).Nodup := (List.nodup_cons.1 hqnd).2
          have hrestv : ∀ x ∈ rest.filterMap id, x ∈ vv := fun x hx =>
            hqv x (List.mem_cons_of_mem _ hx)
          have hhres : h ∉ resAll res := hdisj h (List.mem_cons_self _ _)
          obtain ⟨new, e1, e2, hnd, hfresh, _⟩ :=
            enqChildren_spec (lget db.nodes h).connections rest (setAdd vv h)
          rw [hvv1] at hfresh
          -- facts for the appended-result case
          have hperm := resAll_dput_perm res lvl h
          have hnd1 : (resAll (dput res lvl ((dget res lvl).getD [] ++ [h]))).Nodup := by
            refine hperm.nodup_iff.2 ?_
            rw [List.nodup_append]
            refine ⟨hrnd, List.nodup_singleton h, ?_⟩
            intro x hx hx'
            simp only [List.mem_singleton] at hx'
            subst hx'
            exact hhres hx
          have hmem1 : ∀ x, x ∈ resAll (dput res lvl ((dget res lvl).getD [] ++ [h])) →
              x ∈ resAll res ∨ x = h := by
            intro x hx
            have := hperm.mem_iff.1 hx
            rcases List.mem_append.1 this with h' | h'
            · exact Or.inl h'
            · simp only [List.mem_singleton] at h'
              exact Or.inr h'
          -- invariant facts for the successor state, shared by both filter outcomes
          have hq' : ((rest ++ new.map some).filterMap id) = rest.filterMap id ++ new := by
            rw [List.filterMap_append]
            congr 1
            exact filterMap_id_map_some new
          have hqnd' : ((rest ++ new.map some).filterMap id).Nodup := by
            rw [hq', List.nodup_append]
            refine ⟨hrestnd, hnd, ?_⟩
            intro x hx hx'
            exact (hfresh x hx').2 (hrestv x hx)
          have hqv' : ∀ x ∈ (rest ++ new.map some).filterMap id, x ∈ vv ++ new := by
            intro x hx
            rw [hq'] at hx
            rcases List.mem_append.1 hx with h' | h'
            · exact List.mem_append.2 (Or.inl (hrestv x h'))
            · exact List.mem_append.2 (Or.inr h')
          cases q with
          | none =>
            rw [bfsLoop_step_none db d n vv lvl res h rest hguard] at hres
            rw [e1, e2, hvv1] at hres
            refine ih _ _ _ _ _ hqnd' hqv' hnd1 ?_ ?_ hres
            · intro x hx
              rcases hmem1 x hx with h' | h'
              · exact List.mem_append.2 (Or.inl (hrv x h'))
              · subst h'
                exact List.mem_append.2 (Or.inl hhv)
            · intro x hx hmem
              rw [hq'] at hx
              rcases hmem1 x hmem with h' | h'
              · rcases List.mem_append.1 hx with h'' | h''
                · exact hdisj x (List.mem_cons_of_mem _ h'') h'
                · exact (hfresh x h'').2 (hrv x h')
              · subst h'
                rcases List.mem_append.1 hx with h'' | h''
                · exact hhnotrest h''
                · exact (hfresh x h'').2 hhv
          | some qs =>
            by_cases hlvl0 : lvl = 0
            · subst hlvl0
              rw [bfsLoop_step_filter_zero db qs d n vv res h rest hguard] at hres
              rw [e1, e2, hvv1] at hres
              refine ih _ _ _ _ _ hqnd' hqv' hnd1 ?_ ?_ hres
              · intro x hx
                rcases hmem1 x hx with h' | h'
                · exact List.mem_append.2 (Or.inl (hrv x h'))
                · subst h'
                  exact List.mem_append.2 (Or.inl hhv)
              · intro x hx hmem
                rw [hq'] at hx
                rcases hmem1 x hmem with h' | h'
                · rcases List.mem_append.1 hx with h'' | h''
                  · exact hdisj x (List.mem_cons_of_mem _ h'') h'
                  · exact (hfresh x h'').2 (hrv x h')
                · subst h'
                  rcases List.mem_append.1 hx with h'' | h''
                  · exact hhnotrest h''
                  · exact (hfresh x h'').2 hhv
            · rw [bfsLoop_step_filter_deep db qs d n vv lvl res h rest hguard hlvl0] at hres
              cases hdm : doesNodeMatchQuery (lget db.nodes h) qs with
              | error e =>
                rw [hdm] at hres
                simp at hres
              | ok inc =>
                rw [hdm] at hres
                cases inc with
                | true =>
                  have hres' : bfsLoop db (some qs) d n
                      ⟨(enqChildren (lget db.nodes h).connections rest (setAdd vv h)).2, lvl,
                        dput res lvl ((dget res lvl).getD [] ++ [h]),
                        (enqChildren (lget db.nodes h).connections rest (setAdd vv h)).1⟩ =
                      some (.ok r) := hres
                  rw [e1, e2, hvv1] at hres'
                  refine ih _ _ _ _ _ hqnd' hqv' hnd1 ?_ ?_ hres'
                  · intro x hx
                    rcases hmem1 x hx with h' | h'
                    · exact List.mem_append.2 (Or.inl (hrv x h'))
                    · subst h'
                      exact List.mem_append.2 (Or.inl hhv)
                  · intro x hx hmem
                    rw [hq'] at hx
                    rcases hmem1 x hmem with h' | h'
                    · rcases List.mem_append.1 hx with h'' | h''
                      · exact hdisj x (List.mem_cons_of_mem _ h'') h'
                      · exact (hfresh x h'').2 (hrv x h')
                    · subst h'
                      rcases List.mem_append.1 hx with h'' | h''
                      · exact hhnotrest h''
                      · exact (hfresh x h'').2 hhv
                | false =>
                  have hres' : bfsLoop db (some qs) d n
                      ⟨(enqChildren (lget db.nodes h).connections rest (setAdd vv h)).2, lvl,
                        res,
                        (enqChildren (lget db.nodes h).connections rest (setAdd vv h)).1⟩ =
                      some (.ok r) := hres
                  rw [e1, e2, hvv1] at hres'
                  refine ih _ _ _ _ _ hqnd' hqv' hrnd ?_ ?_ hres'
                  · intro x hx
                    exact List.mem_append.2 (Or.inl (hrv x hx))
                  · intro x hx hmem
                    rw [hq'] at hx
                    rcases List.mem_append.1 hx with h'' | h''
                    · exact hdisj x (List.mem_cons_of_mem _ h'') hmem
                    · exact (hfresh x h'').2 (hrv x hmem)

/-- C8: on any store whose connection handles are valid, bfs never runs
    out of fuel (the loop terminates), and when it returns a result no
    node handle appears more than once across all level result lists. -/
theorem C8_bfs_terminates_no_revisit (db : GraphDB) (s : Nat) (q : Option String)
    (d : Nat) (hcv : connsValidB db = true) :
    db.bfs s q d ≠ none
    ∧ (∀ r : ResMap, db.bfs s q d = some (.ok r) → (resAll r).Nodup) := by
  constructor
  · show bfsLoop db q d (bfsFuel db d) ⟨[], 0, [(0, [])], [some s, none]⟩ ≠ none
    apply bfsLoop_terminates db q d hcv
    rw [unvis_nil]
    simp only [bfsFuel, List.length_cons, List.length_nil]
    omega
  · suffices hgen : ∀ (fuel : Nat) (r : ResMap),
        bfsLoop db q d fuel ⟨[], 0, [(0, [])], [some s, none]⟩ = some (.ok r) →
        (resAll r).Nodup by
      intro r hres
      exact hgen _ r hres
    intro fuel r hres
    cases fuel with
    | zero => exact absurd hres (by simp [bfsLoop])
    | succ n =>
      have hguard : ¬ d < 0 := by omega
      have hstep : bfsLoop db q d (n + 1) ⟨[], 0, [(0, [])], [some s, none]⟩ =
          bfsLoop db q d n
            ⟨(enqChildren (lget db.nodes s).connections [none] (setAdd [] s)).2, 0,
              [(0, [s])],
              (enqChildren (lget db.nodes s).connections [none] (setAdd [] s)).1⟩ := by
        cases q with
        | none => exact bfsLoop_step_none db d n [] 0 [(0, [])] s [none] hguard
        | some qs => exact bfsLoop_step_filter_zero db qs d n [] [(0, [])] s [none] hguard
      rw [hstep] at hres
      obtain ⟨new, e1, e2, hnd, hfresh, _⟩ :=
        enqChildren_spec (lget db.nodes s).connections [none] (setAdd [] s)
      have hsa : setAdd ([] : List Nat) s = [s] := rfl
      rw [e1, e2, hsa] at hres
      rw [hsa] at hfresh
      have hq' : (([none] ++ new.map some).filterMap id : List Nat) = new := by
        rw [List.filterMap_append, filterMap_id_map_some]
        rfl
      refine bfsLoop_nodup db q d n _ _ _ _ _ ?_ ?_ ?_ ?_ ?_ hres
      · rw [hq']
        exact hnd
      · intro x hx
        rw [hq'] at hx
        exact List.mem_append.2 (Or.inr hx)
      · show ([s] : List Nat).Nodup
        simp
      · intro x hx
        have : x = s := by
          have : x ∈ ([s] : List Nat) := hx
          simpa using this
        subst this
        exact List.mem_append.2 (Or.inl (by simp))
      · intro x hx hmem
        rw [hq'] at hx
        have : x = s := by
          have : x ∈ ([s] : List Nat) := hmem
          simpa using this
        subst this
        exact (hfresh x hx).2 (by simp)

/-- Cyclic store A B C with the three connections forming a triangle. -/
def cycleDB : GraphDB :=
  let d := (emptyDB.addNode "Person" "A").2
  let d := (d.addNode "Person" "B").2
  let d := (d.addNode "Person" "C").2
  let d := (d.connect "Person:A" "Person:B").2
  let d := (d.connect "Person:B" "Person:C").2
  let d := (d.connect "Person:C" "Person:A").2
  d

/-- Witness for C8 on the concrete cyclic store. -/
theorem C8_bfs_terminates_no_revisit_witness :
    cycleDB.bfs 0 none 5 ≠ none
    ∧ (∀ r : ResMap, cycleDB.bfs 0 none 5 = some (.ok r) → (resAll r).Nodup) :=
  C8_bfs_terminates_no_revisit cycleDB 0 none 5 (by decide)

/-! Index store characterisation. -/

/-- Option-valued nested read of the index store. -/
def istoreGet (db : GraphDB) (l : String) (k w : Option String) : Option (List Nat) :=
  dget ((dget ((dget db.indexeStore l).getD []) k).getD []) w

theorem lookupSet_eq_istoreGet (db : GraphDB) (l : String) (k w : Option String) :
    db.lookupSet l k w = (istoreGet db l k w).getD [] := rfl

theorem index_spec (db : GraphDB) (L K V : String) (h : Nat) :
    (db.index L K V h).nodes = db.nodes
    ∧ (db.index L K V h).nodeSet = db.nodeSet
    ∧ (db.index L K V h).allIndexSets =
        (if (istoreGet db L (some K) (some V)).isNone = true
         then db.allIndexSets ++ [(L, K, V)] else db.allIndexSets)
    ∧ ∀ (l : String) (k w : Option String),
        istoreGet (db.index L K V h) l k w =
          (if l = L ∧ k = some K ∧ w = some V
           then some (setAdd (db.lookupSet L (some K) (some V)) h)
           else if l = L ∧ k = none ∧ w = none
           then some (setAdd (db.lookupSet L none none) h)
           else istoreGet db l k w) := by
  refine ⟨rfl, rfl, ?_, ?_⟩
  · -- allIndexSets
    simp only [GraphDB.index, istoreGet, GraphDB.lookupSet]
    by_cases hx : dget db.indexeStore L = none
    · simp [hx, dget_dput_self, dget]
    · obtain ⟨km, hkm⟩ := Option.ne_none_iff_exists'.mp hx
      simp only [hkm, Option.isNone_some, Bool.false_eq_true, if_false, Option.getD_some]
      by_cases hk : dget km (some K) = none
      · simp [hk, dget_dput_self, dget]
      · obtain ⟨vm, hvm⟩ := Option.ne_none_iff_exists'.mp hk
        simp [hvm]
  · -- pointwise read characterisation
    intro l k w
    by_cases hl : l = L
    case neg =>
      simp only [GraphDB.index, istoreGet]
      rw [dget_dput_ne _ _ _ _ (fun he => hl he.symm)]
      have hcond1 : ¬ (l = L ∧ k = some K ∧ w = some V) := fun hc => hl hc.1
      have hcond2 : ¬ (l = L ∧ k = none ∧ w = none) := fun hc => hl hc.1
      rw [if_neg hcond1, if_neg hcond2]
      by_cases hlab : (dget db.indexeStore L).isNone = true
      · rw [if_pos hlab, dget_dput_ne _ _ _ _ (fun he => hl he.symm)]
      · rw [if_neg hlab]
    case pos =>
      subst hl
      rcases k with _ | K'
      · rcases w with _ | W
        · -- k none, w none: the label-only set gains the node
          rw [if_neg (by simp), if_pos (by simp)]
          by_cases hx : dget db.indexeStore l = none
          · simp [GraphDB.index, istoreGet, GraphDB.lookupSet, hx, dget_dput_self,
              dget_dput_ne, dget]
          · obtain ⟨km, hkm⟩ := Option.ne_none_iff_exists'.mp hx
            simp only [GraphDB.index, istoreGet, GraphDB.lookupSet, hkm, Option.isNone_some,
              Bool.false_eq_true, if_false, Option.getD_some, dget_dput_self]
            by_cases hk : dget km (some K) = none
            · simp [hkm, hk, dget_dput_self, dget,
                dget_dput_ne _ (some K) none _ (by simp)]
            · obtain ⟨vm, hvm⟩ := Option.ne_none_iff_exists'.mp hk
              simp [hkm, hvm, dget_dput_self, dget,
                dget_dput_ne _ (some K) none _ (by simp)]
        · -- k none, w some W: untouched
          rw [if_neg (by simp), if_neg (by simp)]
          by_cases hx : dget db.indexeStore l = none
          · simp [GraphDB.index, istoreGet, GraphDB.lookupSet, hx, dget_dput_self,
              dget_dput_ne, dget]
          · obtain ⟨km, hkm⟩ := Option.ne_none_iff_exists'.mp hx
            simp only [GraphDB.index, istoreGet, GraphDB.lookupSet, hkm, Option.isNone_some,
              Bool.false_eq_true, if_false, Option.getD_some, dget_dput_self]
            by_cases hk : dget km (some K) = none
            · simp [hkm, hk, dget_dput_self, dget,
                dget_dput_ne _ (some K) none _ (by simp),
                dget_dput_ne _ none (some W) _ (by simp)]
            · obtain ⟨vm, hvm⟩ := Option.ne_none_iff_exists'.mp hk
              simp [hkm, hvm, dget_dput_self, dget,
                dget_dput_ne _ (some K) none _ (by simp),
                dget_dput_ne _ none (some W) _ (by simp)]
      · rcases w with _ | W
        · -- k some K', w none
          rw [if_neg (by simp), if_neg (by simp)]
          by_cases hx : dget db.indexeStore l = none
          · by_cases hK : K' = K
            · subst hK
              simp [GraphDB.index, istoreGet, GraphDB.lookupSet, hx, dget_dput_self, dget,
                dget_dput_ne _ none (some K') _ (by simp),
                dget_dput_ne _ (some V) none _ (by simp)]
            · simp [GraphDB.index, istoreGet, GraphDB.lookupSet, hx, dget_dput_self, dget,
                Ne.symm hK,
                dget_dput_ne _ none (some K') _ (by simp),
                dget_dput_ne _ (some V) none _ (by simp),
                dget_dput_ne _ (some K) (some K') _ (by simp [Ne.symm hK])]
          · obtain ⟨km, hkm⟩ := Option.ne_none_iff_exists'.mp hx
            by_cases hK : K' = K
            · subst hK
              by_cases hk : dget km (some K') = none
              · simp [GraphDB.index, istoreGet, GraphDB.lookupSet, hkm, hk, dget_dput_self,
                  dget, dget_dput_ne _ none (some K') _ (by simp),
                  dget_dput_ne _ (some V) none _ (by simp)]
              · obtain ⟨vm, hvm⟩ := Option.ne_none_iff_exists'.mp hk
                by_cases hv : dget vm (some V) = none
                · simp [GraphDB.index, istoreGet, GraphDB.lookupSet, hkm, hvm, hv,
                    dget_dput_self, dget,
                    dget_dput_ne _ none (some K') _ (by simp),
                    dget_dput_ne _ (some V) none _ (by simp)]
                · obtain ⟨s0, hs0⟩ := Option.ne_none_iff_exists'.mp hv
                  simp [GraphDB.index, istoreGet, GraphDB.lookupSet, hkm, hvm, hs0,
                    dget_dput_self, dget,
                    dget_dput_ne _ none (some K') _ (by simp),
                    dget_dput_ne _ (some V) none _ (by simp)]
            · by_cases hk : dget km (some K) = none
              · simp [GraphDB.index, istoreGet, GraphDB.lookupSet, hkm, hk, dget_dput_self,
                  dget, Ne.symm hK,
                  dget_dput_ne _ none (some K') _ (by simp),
                  dget_dput_ne _ (some K) (some K') _ (by simp [Ne.symm hK])]
              · obtain ⟨vm, hvm⟩ := Option.ne_none_iff_exists'.mp hk
                simp [GraphDB.index, istoreGet, GraphDB.lookupSet, hkm, hvm, dget_dput_self,
                  dget, Ne.symm hK,
                  dget_dput_ne _ none (some K') _ (by simp),
                  dget_dput_ne _ (some K) (some K') _ (by simp [Ne.symm hK])]
        · -- k some K', w some W
          by_cases hK : K' = K
          · subst hK
            by_cases hW : W = V
            · subst hW
              rw [if_pos (by simp)]
              by_cases hx : dget db.indexeStore l = none
              · simp [GraphDB.index, istoreGet, GraphDB.lookupSet, hx, dget_dput_self,
                  dget, dget_dput_ne _ none (some K') _ (by simp)]
              · obtain ⟨km, hkm⟩ := Option.ne_none_iff_exists'.mp hx
                by_cases hk : dget km (some K') = none
                · simp [GraphDB.index, istoreGet, GraphDB.lookupSet, hkm, hk,
                    dget_dput_self, dget, dget_dput_ne _ none (some K') _ (by simp)]
                · obtain ⟨vm, hvm⟩ := Option.ne_none_iff_exists'.mp hk
                  by_cases hv : dget vm (some W) = none
                  · simp [GraphDB.index, istoreGet, GraphDB.lookupSet, hkm, hvm, hv,
                      dget_dput_self, dget, dget_dput_ne _ none (some K') _ (by simp)]
                  · obtain ⟨s0, hs0⟩ := Option.ne_none_iff_exists'.mp hv
                    simp [GraphDB.index, istoreGet, GraphDB.lookupSet, hkm, hvm, hs0,
                      dget_dput_self, dget, dget_dput_ne _ none (some K') _ (by simp)]
            · -- W ≠ V
              rw [if_neg (by simp [hW]), if_neg (by simp)]
              by_cases hx : dget db.indexeStore l = none
              · simp [GraphDB.index, istoreGet, GraphDB.lookupSet, hx, dget_dput_self,
                  dget, Ne.symm hW, dget_dput_ne _ none (some K') _ (by simp),
                  dget_dput_ne _ (some V) (some W) _ (by simp [Ne.symm hW])]
              · obtain ⟨km, hkm⟩ := Option.ne_none_iff_exists'.mp hx
                by_cases hk : dget km (some K') = none
                · simp [GraphDB.index, istoreGet, GraphDB.lookupSet, hkm, hk,
                    dget_dput_self, dget, Ne.symm hW,
                    dget_dput_ne _ none (some K') _ (by simp),
                    dget_dput_ne _ (some V) (some W) _ (by simp [Ne.symm hW])]
                · obtain ⟨vm, hvm⟩ := Option.ne_none_iff_exists'.mp hk
                  by_cases hv : dget vm (some V) = none
                  · simp [GraphDB.index, istoreGet, GraphDB.lookupSet, hkm, hvm, hv,
                      dget_dput_self, dget, Ne.symm hW,
                      dget_dput_ne _ none (some K') _ (by simp),
                      dget_dput_ne _ (some V) (some W) _ (by simp [Ne.symm hW])]
                  · obtain ⟨s0, hs0⟩ := Option.ne_none_iff_exists'.mp hv
                    simp [GraphDB.index, istoreGet, GraphDB.lookupSet, hkm, hvm, hs0,
                      dget_dput_self, dget, Ne.symm hW,
                      dget_dput_ne _ none (some K') _ (by simp),
                      dget_dput_ne _ (some V) (some W) _ (by simp [Ne.symm hW])]
          · -- K' ≠ K
            rw [if_neg (by simp [hK]), if_neg (by simp)]
            by_cases hx : dget db.indexeStore l = none
            · simp [GraphDB.index, istoreGet, GraphDB.lookupSet, hx, dget_dput_self, dget,
                Ne.symm hK, dget_dput_ne _ none (some K') _ (by simp),
                dget_dput_ne _ (some K) (some K') _ (by simp [Ne.symm hK])]
            · obtain ⟨km, hkm⟩ := Option.ne_none_iff_exists'.mp hx
              by_cases hk : dget km (some K) = none
              · simp [GraphDB.index, istoreGet, GraphDB.lookupSet, hkm, hk, dget_dput_self,
                  dget, Ne.symm hK, dget_dput_ne _ none (some K') _ (by simp),
                  dget_dput_ne _ (some K) (some K') _ (by simp [Ne.symm hK])]
              · obtain ⟨vm, hvm⟩ := Option.ne_none_iff_exists'.mp hk
                simp [GraphDB.index, istoreGet, GraphDB.lookupSet, hkm, hvm, dget_dput_self,
                  dget, Ne.symm hK, dget_dput_ne _ none (some K') _ (by simp),
                  dget_dput_ne _ (some K) (some K') _ (by simp [Ne.symm hK])]

/-- Nested read at the raw index-store level. -/
def isGet (s : IStore) (l : String) (k w : Option String) : Option (List Nat) :=
  dget ((dget ((dget s l).getD []) k).getD []) w

theorem istoreGet_eq_isGet (db : GraphDB) (l : String) (k w : Option String) :
    istoreGet db l k w = isGet db.indexeStore l k w := rfl

theorem istoreRemove_isGet (s : IStore) (P1 P2 P3 : String) (hh : Nat) (l : String)
    (k w : Option String) :
    isGet (istoreRemove s (P1, P2, P3) hh) l k w =
      (if l = P1 ∧ k = some P2 ∧ w = some P3
       then (isGet s l k w).map (fun s0 => s0.filter (fun x => x ≠ hh))
       else isGet s l k w) := by
  simp only [istoreRemove]
  by_cases e1 : dget s P1 = none
  · rw [e1]
    by_cases hc : l = P1 ∧ k = some P2 ∧ w = some P3
    · obtain ⟨rfl, rfl, rfl⟩ := hc
      rw [if_pos ⟨rfl, rfl, rfl⟩]
      simp [isGet, e1, dget]
    · rw [if_neg hc]
  · obtain ⟨km, hkm⟩ := Option.ne_none_iff_exists'.mp e1
    simp only [hkm]
    by_cases e2 : dget km (some P2) = none
    · simp only [e2]
      by_cases hc : l = P1 ∧ k = some P2 ∧ w = some P3
      · obtain ⟨rfl, rfl, rfl⟩ := hc
        rw [if_pos ⟨rfl, rfl, rfl⟩]
        simp [isGet, hkm, e2, dget]
      · rw [if_neg hc]
    · obtain ⟨vm, hvm⟩ := Option.ne_none_iff_exists'.mp e2
      simp only [hvm]
      by_cases e3 : dget vm (some P3) = none
      · simp only [e3]
        by_cases hc : l = P1 ∧ k = some P2 ∧ w = some P3
        · obtain ⟨rfl, rfl, rfl⟩ := hc
          rw [if_pos ⟨rfl, rfl, rfl⟩]
          simp [isGet, hkm, hvm, e3]
        · rw [if_neg hc]
      · obtain ⟨s1, hs1⟩ := Option.ne_none_iff_exists'.mp e3
        simp only [hs1]
        by_cases hl : l = P1
        · subst hl
          simp only [isGet, dget_dput_self, Option.getD_some]
          by_cases hk : k = some P2
          · subst hk
            simp only [dget_dput_self, Option.getD_some]
            by_cases hw : w = some P3
            · subst hw
              rw [if_pos (by simp), dget_dput_self]
              simp [hkm, hvm, hs1]
            · rw [if_neg (fun hc => hw hc.2.2),
                dget_dput_ne _ _ _ _ (fun he => hw he.symm)]
              simp [hkm, hvm]
          · rw [if_neg (fun hc => hk hc.2.1),
              dget_dput_ne _ _ _ _ (fun he => hk he.symm)]
            simp [hkm]
        · rw [if_neg (fun hc => hl hc.1)]
          simp only [isGet]
          rw [dget_dput_ne _ _ _ _ (fun he => hl he.symm)]

/-- Fold of registered-path removals, the body of unIndex. -/
def removeFold (ps : List (String × String × String)) (s : IStore) (hh : Nat) : IStore :=
  ps.foldl (fun s p => istoreRemove s p hh) s

theorem unIndex_istore (db : GraphDB) (hh : Nat) :
    (db.unIndex hh).indexeStore = removeFold db.allIndexSets db.indexeStore hh := rfl

theorem filter_ne_idem (s0 : List Nat) (hh : Nat) :
    (s0.filter (fun x => x ≠ hh)).filter (fun x => x ≠ hh) =
      s0.filter (fun x => x ≠ hh) := by
  induction s0 with
  | nil => rfl
  | cons a t ih =>
    by_cases ha : a = hh
    · simp [List.filter_cons, ha, ih]
    · simp [List.filter_cons, ha, ih]

theorem removeFold_isGet (hh : Nat) :
    ∀ (ps : List (String × String × String)) (s : IStore) (l : String) (k w : Option String),
      isGet (removeFold ps s hh) l k w = isGet s l k w ∨
      isGet (removeFold ps s hh) l k w =
        (isGet s l k w).map (fun s0 => s0.filter (fun x => x ≠ hh)) := by
  intro ps
  induction ps with
  | nil => intro s l k w; exact Or.inl rfl
  | cons p rest ih =>
    intro s l k w
    rcases p with ⟨P1, P2, P3⟩
    have hstep := istoreRemove_isGet s P1 P2 P3 hh l k w
    have hfold : removeFold ((P1, P2, P3) :: rest) s hh =
        removeFold rest (istoreRemove s (P1, P2, P3) hh) hh := rfl
    rw [hfold]
    rcases ih (istoreRemove s (P1, P2, P3) hh) l k w with h1 | h1 <;> rw [h1, hstep]
    · by_cases hc : l = P1 ∧ k = some P2 ∧ w = some P3
      · rw [if_pos hc]; exact Or.inr rfl
      · rw [if_neg hc]; exact Or.inl rfl
    · by_cases hc : l = P1 ∧ k = some P2 ∧ w = some P3
      · rw [if_pos hc]
        right
        cases hg : isGet s l k w with
        | none => rfl
        | some s0 => simp [filter_ne_idem]
      · rw [if_neg hc]; exact Or.inr rfl

theorem mem_map_filter_getD {o : Option (List Nat)} {x hh : Nat} (hx : x ≠ hh) :
    x ∈ (o.map (fun s0 => s0.filter (fun y => y ≠ hh))).getD [] ↔ x ∈ o.getD [] := by
  cases o with
  | none => simp
  | some s0 => simp [List.mem_filter, hx]

theorem not_mem_map_filter_getD (o : Option (List Nat)) (hh : Nat) :
    hh ∉ (o.map (fun s0 => s0.filter (fun y => y ≠ hh))).getD [] := by
  cases o with
  | none => simp
  | some s0 => simp [List.mem_filter]

theorem removeFold_mem (hh : Nat) (ps : List (String × String × String)) (s : IStore)
    (l : String) (k w : Option String) (x : Nat) (hx : x ≠ hh) :
    x ∈ (isGet (removeFold ps s hh) l k w).getD [] ↔ x ∈ (isGet s l k w).getD [] := by
  rcases removeFold_isGet hh ps s l k w with h1 | h1 <;> rw [h1]
  exact mem_map_filter_getD hx

theorem removeFold_isSome (hh : Nat) (ps : List (String × String × String)) (s : IStore)
    (l : String) (k w : Option String) :
    (isGet (removeFold ps s hh) l k w).isSome = (isGet s l k w).isSome := by
  rcases removeFold_isGet hh ps s l k w with h1 | h1 <;> rw [h1]
  cases isGet s l k w <;> rfl

theorem removeFold_no_hh_propagate (hh : Nat) (ps : List (String × String × String))
    (s : IStore) (l : String) (k w : Option String)
    (h0 : hh ∉ (isGet s l k w).getD []) :
    hh ∉ (isGet (removeFold ps s hh) l k w).getD [] := by
  rcases removeFold_isGet hh ps s l k w with h1 | h1 <;> rw [h1]
  · exact h0
  · exact not_mem_map_filter_getD _ _

theorem removeFold_not_mem (hh : Nat) :
    ∀ (ps : List (String × String × String)) (s : IStore) (P1 P2 P3 : String),
      (P1, P2, P3) ∈ ps →
      hh ∉ (isGet (removeFold ps s hh) P1 (some P2) (some P3)).getD [] := by
  intro ps
  induction ps with
  | nil =>
    intro s P1 P2 P3 hmem
    simp at hmem
  | cons p rest ih =>
    intro s P1 P2 P3 hmem
    have hfold : removeFold (p :: rest) s hh =
        removeFold rest (istoreRemove s p hh) hh := rfl
    rw [hfold]
    rcases List.mem_cons.1 hmem with rfl | hmem'
    · apply removeFold_no_hh_propagate
      rw [istoreRemove_isGet s P1 P2 P3 hh P1 (some P2) (some P3),
        if_pos ⟨rfl, rfl, rfl⟩]
      exact not_mem_map_filter_getD _ _
    · exact ih _ P1 P2 P3 hmem'

/-- Registration invariant: every existing value-level index set is
    recorded in allIndexSets. -/
def registration (db : GraphDB) : Prop :=
  ∀ l p w, (istoreGet db l (some p) (some w)).isSome = true → (l, p, w) ∈ db.allIndexSets

theorem unIndex_spec (db : GraphDB) (hh : Nat) (hreg : registration db) :
    (db.unIndex hh).nodes = db.nodes
    ∧ (db.unIndex hh).nodeSet = db.nodeSet
    ∧ (db.unIndex hh).allIndexSets = db.allIndexSets
    ∧ (∀ (l : String) (k w : Option String) (h' : Nat), h' ≠ hh →
        (h' ∈ (db.unIndex hh).lookupSet l k w ↔ h' ∈ db.lookupSet l k w))
    ∧ (∀ (l p w : String), hh ∉ (db.unIndex hh).lookupSet l (some p) (some w))
    ∧ registration (db.unIndex hh) := by
  refine ⟨rfl, rfl, rfl, ?_, ?_, ?_⟩
  · intro l k w h' hne
    show h' ∈ (istoreGet (db.unIndex hh) l k w).getD [] ↔
      h' ∈ (istoreGet db l k w).getD []
    rw [istoreGet_eq_isGet, istoreGet_eq_isGet, unIndex_istore]
    exact removeFold_mem hh _ _ l k w h' hne
  · intro l p w
    show hh ∉ (istoreGet (db.unIndex hh) l (some p) (some w)).getD []
    rw [istoreGet_eq_isGet, unIndex_istore]
    by_cases hs : (isGet db.indexeStore l (some p) (some w)).isSome = true
    · have hreg' := hreg l p w (by rw [istoreGet_eq_isGet]; exact hs)
      exact removeFold_not_mem hh _ _ l p w hreg'
    · apply removeFold_no_hh_propagate
      intro hmem
      apply hs
      cases hg : isGet db.indexeStore l (some p) (some w) with
      | none => rw [hg] at hmem; simp at hmem
      | some s0 => simp
  · intro l p w hs
    show (l, p, w) ∈ db.allIndexSets
    apply hreg
    rw [istoreGet_eq_isGet] at hs ⊢
    rw [unIndex_istore] at hs
    rw [← removeFold_isSome hh db.allIndexSets db.indexeStore l (some p) (some w)]
    exact hs

/-! Corollaries of the index characterisation. -/

theorem lookupSet_getD (db : GraphDB) (l : String) (k w : Option String) :
    db.lookupSet l k w = (istoreGet db l k w).getD [] := rfl

theorem index_mono (db : GraphDB) (L K V : String) (hh : Nat) (l : String)
    (k w : Option String) (x : Nat) (hx : x ∈ db.lookupSet l k w) :
    x ∈ (db.index L K V hh).lookupSet l k w := by
  rw [lookupSet_getD, (index_spec db L K V hh).2.2.2 l k w]
  by_cases hc : l = L ∧ k = some K ∧ w = some V
  · obtain ⟨rfl, rfl, rfl⟩ := hc
    rw [if_pos ⟨rfl, rfl, rfl⟩]
    simp only [Option.getD_some]
    exact (mem_setAdd _ _ _).2 (Or.inl hx)
  · rw [if_neg hc]
    by_cases hc2 : l = L ∧ k = none ∧ w = none
    · obtain ⟨rfl, rfl, rfl⟩ := hc2
      rw [if_pos ⟨rfl, rfl, rfl⟩]
      simp only [Option.getD_some]
      exact (mem_setAdd _ _ _).2 (Or.inl hx)
    · rw [if_neg hc2]
      exact hx

theorem index_frame (db : GraphDB) (L K V : String) (hh : Nat) (l : String)
    (k w : Option String) (h' : Nat) (hne : h' ≠ hh) :
    h' ∈ (db.index L K V hh).lookupSet l k w ↔ h' ∈ db.lookupSet l k w := by
  rw [lookupSet_getD, (index_spec db L K V hh).2.2.2 l k w]
  by_cases hc : l = L ∧ k = some K ∧ w = some V
  · obtain ⟨rfl, rfl, rfl⟩ := hc
    rw [if_pos ⟨rfl, rfl, rfl⟩]
    simp only [Option.getD_some, mem_setAdd]
    constructor
    · rintro (hmem | rfl)
      · exact hmem
      · exact absurd rfl hne
    · exact fun hmem => Or.inl hmem
  · rw [if_neg hc]
    by_cases hc2 : l = L ∧ k = none ∧ w = none
    · obtain ⟨rfl, rfl, rfl⟩ := hc2
      rw [if_pos ⟨rfl, rfl, rfl⟩]
      simp only [Option.getD_some, mem_setAdd]
      constructor
      · rintro (hmem | rfl)
        · exact hmem
        · exact absurd rfl hne
      · exact fun hmem => Or.inl hmem
    · rw [if_neg hc2]
      exact Iff.rfl

theorem index_self_mem (db : GraphDB) (L K V : String) (hh : Nat) :
    hh ∈ (db.index L K V hh).lookupSet L (some K) (some V) := by
  rw [lookupSet_getD, (index_spec db L K V hh).2.2.2 L (some K) (some V),
    if_pos ⟨rfl, rfl, rfl⟩]
  simp only [Option.getD_some]
  exact self_mem_setAdd _ hh

theorem index_hh_src (db : GraphDB) (L K V : String) (hh : Nat) (l p w : String)
    (hmem : hh ∈ (db.index L K V hh).lookupSet l (some p) (some w)) :
    hh ∈ db.lookupSet l (some p) (some w) ∨ (l = L ∧ p = K ∧ w = V) := by
  rw [lookupSet_getD, (index_spec db L K V hh).2.2.2 l (some p) (some w)] at hmem
  by_cases hc : l = L ∧ (some p : Option String) = some K ∧ (some w : Option String) = some V
  · right
    exact ⟨hc.1, Option.some.inj hc.2.1, Option.some.inj hc.2.2⟩
  · rw [if_neg hc, if_neg (by simp)] at hmem
    exact Or.inl hmem

theorem index_preserves_registration (db : GraphDB) (L K V : String) (hh : Nat)
    (hreg : registration db) : registration (db.index L K V hh) := by
  intro l p w hs
  have hall := (index_spec db L K V hh).2.2.1
  have hall_sub : ∀ x ∈ db.allIndexSets, x ∈ (db.index L K V hh).allIndexSets := by
    intro x hx
    rw [hall]
    by_cases hn : (istoreGet db L (some K) (some V)).isNone = true
    · rw [if_pos hn]; exact List.mem_append.2 (Or.inl hx)
    · rw [if_neg hn]; exact hx
  rw [(index_spec db L K V hh).2.2.2 l (some p) (some w)] at hs
  by_cases hc : l = L ∧ (some p : Option String) = some K ∧ (some w : Option String) = some V
  · obtain ⟨rfl, hpk, hwv⟩ := hc
    have hp : p = K := Option.some.inj hpk
    have hw : w = V := Option.some.inj hwv
    subst hp
    subst hw
    by_cases hn : (istoreGet db l (some p) (some w)).isNone = true
    · rw [hall, if_pos hn]
      exact List.mem_append.2 (Or.inr (List.mem_singleton.2 rfl))
    · apply hall_sub
      apply hreg
      cases hg : istoreGet db l (some p) (some w) with
      | none => rw [hg] at hn; simp at hn
      | some s0 => simp
  · rw [if_neg hc, if_neg (by simp)] at hs
    exact hall_sub _ (hreg l p w hs)

/-- The fold inside addIndex, generalised over the property list. -/
def indexFold (hh : Nat) (ps : List (String × String)) (d : GraphDB) : GraphDB :=
  ps.foldl (fun d kv => d.index (lget d.nodes hh).label kv.1 kv.2 hh) d

theorem addIndex_eq_indexFold (db : GraphDB) (hh : Nat) :
    db.addIndex hh = indexFold hh (lget db.nodes hh).properties db := rfl

theorem indexFold_nodes (hh : Nat) :
    ∀ (ps : List (String × String)) (d : GraphDB),
      (indexFold hh ps d).nodes = d.nodes ∧ (indexFold hh ps d).nodeSet = d.nodeSet := by
  intro ps
  induction ps with
  | nil => intro d; exact ⟨rfl, rfl⟩
  | cons kv rest ih =>
    intro d
    have hstep : indexFold hh (kv :: rest) d =
        indexFold hh rest (d.index (lget d.nodes hh).label kv.1 kv.2 hh) := rfl
    rw [hstep]
    have := ih (d.index (lget d.nodes hh).label kv.1 kv.2 hh)
    exact ⟨this.1.trans rfl, this.2.trans rfl⟩

theorem indexFold_mono (hh : Nat) :
    ∀ (ps : List (String × String)) (d : GraphDB) (l : String) (k w : Option String)
      (x : Nat), x ∈ d.lookupSet l k w → x ∈ (indexFold hh ps d).lookupSet l k w := by
  intro ps
  induction ps with
  | nil => intro d l k w x hx; exact hx
  | cons kv rest ih =>
    intro d l k w x hx
    exact ih _ l k w x (index_mono d _ kv.1 kv.2 hh l k w x hx)

theorem indexFold_frame (hh : Nat) :
    ∀ (ps : List (String × String)) (d : GraphDB) (l : String) (k w : Option String)
      (h' : Nat), h' ≠ hh →
      (h' ∈ (indexFold hh ps d).lookupSet l k w ↔ h' ∈ d.lookupSet l k w) := by
  intro ps
  induction ps with
  | nil => intro d l k w h' _; exact Iff.rfl
  | cons kv rest ih =>
    intro d l k w h' hne
    exact (ih _ l k w h' hne).trans (index_frame d _ kv.1 kv.2 hh l k w h' hne)

theorem indexFold_complete (hh : Nat) :
    ∀ (ps : List (String × String)) (d : GraphDB) (p w : String), (p, w) ∈ ps →
      hh ∈ (indexFold hh ps d).lookupSet (lget d.nodes hh).label (some p) (some w) := by
  intro ps
  induction ps with
  | nil =>
    intro d p w hmem
    simp at hmem
  | cons kv rest ih =>
    intro d p w hmem
    have hstep : indexFold hh (kv :: rest) d =
        indexFold hh rest (d.index (lget d.nodes hh).label kv.1 kv.2 hh) := rfl
    rw [hstep]
    rcases List.mem_cons.1 hmem with heq | hmem'
    · have : kv.1 = p ∧ kv.2 = w := by
        cases kv
        cases heq
        exact ⟨rfl, rfl⟩
      obtain ⟨rfl, rfl⟩ := this
      exact indexFold_mono hh rest _ _ _ _ hh
        (index_self_mem d (lget d.nodes hh).label kv.1 kv.2 hh)
    · have hnodes := ((index_spec d (lget d.nodes hh).label kv.1 kv.2 hh).1).symm
      have := ih (d.index (lget d.nodes hh).label kv.1 kv.2 hh) p w hmem'
      rw [← hnodes] at this
      exact this

theorem indexFold_hh_src (hh : Nat) :
    ∀ (ps : List (String × String)) (d : GraphDB) (l p w : String),
      hh ∈ (indexFold hh ps d).lookupSet l (some p) (some w) →
      hh ∈ d.lookupSet l (some p) (some w) ∨
        (l = (lget d.nodes hh).label ∧ (p, w) ∈ ps) := by
  intro ps
  induction ps with
  | nil =>
    intro d l p w hmem
    exact Or.inl hmem
  | cons kv rest ih =>
    intro d l p w hmem
    have hstep : indexFold hh (kv :: rest) d =
        indexFold hh rest (d.index (lget d.nodes hh).label kv.1 kv.2 hh) := rfl
    rw [hstep] at hmem
    have hnodes := (index_spec d (lget d.nodes hh).label kv.1 kv.2 hh).1
    rcases ih _ l p w hmem with h1 | h1
    · rcases index_hh_src d _ kv.1 kv.2 hh l p w h1 with h2 | h2
      · exact Or.inl h2
      · right
        refine ⟨h2.1, ?_⟩
        cases kv
        rcases h2 with ⟨_, rfl, rfl⟩
        exact List.mem_cons_self _ _
    · right
      rw [hnodes] at h1
      exact ⟨h1.1, List.mem_cons_of_mem _ h1.2⟩

theorem indexFold_registration (hh : Nat) :
    ∀ (ps : List (String × String)) (d : GraphDB),
      registration d → registration (indexFold hh ps d) := by
  intro ps
  induction ps with
  | nil => intro d hreg; exact hreg
  | cons kv rest ih =>
    intro d hreg
    exact ih _ (index_preserves_registration d _ kv.1 kv.2 hh hreg)

/-! Dictionary key lemmas. -/

theorem dget_none_iff {α β : Type} [DecidableEq α] (d : List (α × β)) (k : α) :
    dget d k = none ↔ k ∉ d.map Prod.fst := by
  induction d with
  | nil => simp [dget]
  | cons p rest ih =>
    simp only [List.map_cons, List.mem_cons, dget]
    by_cases hp : p.1 = k
    · simp [hp]
    · rw [if_neg hp, ih]
      constructor
      · intro hk hor
        rcases hor with h1 | h1
        · exact hp h1.symm
        · exact hk h1
      · intro hk h1
        exact hk (Or.inr h1)

theorem dget_some_iff_mem {α β : Type} [DecidableEq α] (d : List (α × β)) (p : α) (w : β)
    (hnd : (d.map Prod.fst).Nodup) : dget d p = some w ↔ (p, w) ∈ d := by
  induction d with
  | nil => simp [dget]
  | cons q rest ih =>
    obtain ⟨k0, v0⟩ := q
    simp only [List.map_cons, List.nodup_cons] at hnd
    simp only [dget, List.mem_cons]
    by_cases hp : k0 = p
    · subst hp
      rw [if_pos rfl]
      constructor
      · intro hw
        left
        have : v0 = w := Option.some.inj hw
        rw [this]
      · rintro (heq | hmem)
        · injection heq with h1 h2
          rw [h2]
        · exact absurd (List.mem_map.2 ⟨(k0, w), hmem, rfl⟩) hnd.1
    · rw [if_neg hp, ih hnd.2]
      constructor
      · exact fun hmem => Or.inr hmem
      · rintro (heq | hmem)
        · exfalso
          injection heq with h1 h2
          exact hp h1.symm
        · exact hmem

theorem dput_keys_nodup {α β : Type} [DecidableEq α] (d : List (α × β)) (k : α) (v : β)
    (hnd : (d.map Prod.fst).Nodup) : ((dput d k v).map Prod.fst).Nodup := by
  rcases dput_decomp d k with ⟨hnone, hput⟩ | ⟨pre, old, post, hr, hget, hput⟩
  · rw [hput, List.map_append]
    simp only [List.map_cons, List.map_nil]
    rw [List.nodup_append]
    refine ⟨hnd, List.nodup_singleton _, ?_⟩
    intro x hx hx'
    simp only [List.mem_singleton] at hx'
    rw [hx'] at hx
    exact (dget_none_iff d k).1 hnone hx
  · rw [hput]
    rw [hr] at hnd
    simpa using hnd

/-! Combined reindexing specification. -/

theorem reIndex_spec (db : GraphDB) (hh : Nat) (hreg : registration db) :
    (db.reIndex hh).nodes = db.nodes
    ∧ (db.reIndex hh).nodeSet = db.nodeSet
    ∧ (∀ (l : String) (k w : Option String) (h' : Nat), h' ≠ hh →
        (h' ∈ (db.reIndex hh).lookupSet l k w ↔ h' ∈ db.lookupSet l k w))
    ∧ (∀ (p w : String), (p, w) ∈ (lget db.nodes hh).properties →
        hh ∈ (db.reIndex hh).lookupSet (lget db.nodes hh).label (some p) (some w))
    ∧ (∀ (l p w : String), hh ∈ (db.reIndex hh).lookupSet l (some p) (some w) →
        l = (lget db.nodes hh).label ∧ (p, w) ∈ (lget db.nodes hh).properties)
    ∧ registration (db.reIndex hh) := by
  obtain ⟨hn1, hn2, hn3, hframe, hclean, hreg1⟩ := unIndex_spec db hh hreg
  have hre : db.reIndex hh = indexFold hh (lget (db.unIndex hh).nodes hh).properties
      (db.unIndex hh) := rfl
  refine ⟨?_, ?_, ?_, ?_, ?_, ?_⟩
  · rw [hre, (indexFold_nodes hh _ _).1, hn1]
  · rw [hre, (indexFold_nodes hh _ _).2, hn2]
  · intro l k w h' hne
    rw [hre, indexFold_frame hh _ _ l k w h' hne]
    exact hframe l k w h' hne
  · intro p w hmem
    rw [hre]
    have hlab : (lget (db.unIndex hh).nodes hh).label = (lget db.nodes hh).label := by
      rw [hn1]
    rw [← hlab]
    apply indexFold_complete hh _ _ p w
    rw [hn1]
    exact hmem
  · intro l p w hmem
    rw [hre] at hmem
    rcases indexFold_hh_src hh _ _ l p w hmem with h1 | h1
    · exact absurd h1 (hclean l p w)
    · rw [hn1] at h1
      exact h1
  · rw [hre]
    exact indexFold_registration hh _ _ hreg1

theorem lget_append_single {α : Type} [Inhabited α] (l : List α) (x : α) (i : Nat) :
    lget (l ++ [x]) i =
      if i < l.length then lget l i else if i = l.length then x else default := by
  by_cases h1 : i < l.length
  · rw [if_pos h1, lget_append_left _ _ _ h1]
  · rw [if_neg h1]
    by_cases h2 : i = l.length
    · rw [if_pos h2, h2, lget_concat_self]
    · rw [if_neg h2, lget_oob]
      simp only [List.length_append, List.length_cons, List.length_nil]
      omega

theorem parse_key_some_val (Q l k : String) (vo : Option String)
    (h : parseQueryQualifier Q = .ok (l, some k, vo)) : ∃ v, vo = some v := by
  simp only [parseQueryQualifier] at h
  by_cases h2 : (pySplit Q ':').length = 2
  · rw [if_pos h2] at h
    cases hc : parseQueryClause ((pySplit Q ':').getD 1 "") with
    | error e =>
      rw [hc] at h
      simp at h
    | ok kv =>
      rcases kv with ⟨k0, v0⟩
      rw [hc] at h
      refine ⟨v0, ?_⟩
      injection h with h1
      injection h1 with ha hb
      injection hb with hb1 hb2
      exact hb2.symm
  · rw [if_neg h2] at h
    by_cases h1 : (pySplit Q ':').length = 1
    · rw [if_pos h1] at h
      injection h with h1'
      injection h1' with ha hb
      injection hb with hb1 hb2
      exact absurd hb1.symm (by simp)
    · rw [if_neg h1] at h
      simp at h

theorem queryById_ok_mem (db : GraphDB) (q : String) (hh : Nat)
    (h : db.queryById q = .ok hh) :
    ∃ l v, hh ∈ db.lookupSet l (some "id") (some v) := by
  cases hp : parseQueryQualifier q with
  | error e =>
    simp only [GraphDB.queryById, hp] at h
    simp at h
  | ok t =>
    rcases t with ⟨l, k, vo⟩
    simp only [GraphDB.queryById, hp] at h
    by_cases hk : k ≠ some "id"
    · rw [if_pos hk] at h
      simp at h
    · rw [if_neg hk] at h
      push_neg at hk
      subst hk
      obtain ⟨v, rfl⟩ := parse_key_some_val q l "id" vo hp
      refine ⟨l, v, ?_⟩
      cases hg1 : dget db.indexeStore l with
      | none =>
        simp only [hg1] at h
        simp at h
      | some km =>
        simp only [hg1] at h
        cases hg2 : dget km (some "id") with
        | none =>
          simp only [hg2] at h
          simp at h
        | some vm =>
          simp only [hg2] at h
          cases hg3 : dget vm (some v) with
          | none =>
            simp only [hg3] at h
            simp at h
          | some s0 =>
            simp only [hg3] at h
            cases s0 with
            | nil => simp at h
            | cons h0 t0 =>
              have : h0 = hh := by
                injection h
              subst this
              show h0 ∈ (istoreGet db l (some "id") (some v)).getD []
              simp only [istoreGet, hg1, Option.getD_some, hg2, hg3]
              exact List.mem_cons_self _ _

/-! The index consistency invariant. -/

/-- Every stored node has duplicate-free property keys. -/
def keysNodupInv (db : GraphDB) : Prop :=
  ∀ h : Nat, ((lget db.nodes h).properties.map Prod.fst).Nodup

/-- Bookkeeping invariants: the node set is exactly the arena range,
    property keys are duplicate free, and every value-level index set
    is registered. -/
def storeAux (db : GraphDB) : Prop :=
  db.nodeSet = List.range db.nodes.length ∧ keysNodupInv db ∧ registration db

/-- Completeness half of the claim: every property pair of a stored
    node is indexed under the node's label. -/
def indexComplete (db : GraphDB) : Prop :=
  ∀ h ∈ db.nodeSet, ∀ p w : String,
    dget (lget db.nodes h).properties p = some w →
    h ∈ db.lookupSet (lget db.nodes h).label (some p) (some w)

/-- No-stale half of the claim: a node found in a value-level index set
    is stored, carries that label and currently has that property value. -/
def noStale (db : GraphDB) : Prop :=
  ∀ (l p w : String) (h : Nat), h ∈ db.lookupSet l (some p) (some w) →
    h ∈ db.nodeSet ∧ (lget db.nodes h).label = l ∧
    dget (lget db.nodes h).properties p = some w

def StoreInv (db : GraphDB) : Prop := storeAux db ∧ indexComplete db ∧ noStale db

theorem storeInv_empty : StoreInv emptyDB := by
  refine ⟨⟨rfl, ?_, ?_⟩, ?_, ?_⟩
  · intro h
    cases h <;> simp [lget, emptyDB, default]
  · intro l p w hs
    simp [istoreGet, emptyDB, dget] at hs
  · intro h hmem
    simp [emptyDB] at hmem
  · intro l p w h hmem
    simp [GraphDB.lookupSet, emptyDB, dget] at hmem

/-- The store state right after addNode inserts the fresh node, before
    reindexing. -/
def addNodeInserted (db : GraphDB) (L I : String) : GraphDB :=
  { db with nodes := db.nodes ++ [Node.new I L],
            nodeSet := setAdd db.nodeSet db.nodes.length }

theorem storeInv_addNode (db : GraphDB) (L I : String) (hinv : StoreInv db) :
    StoreInv (db.addNode L I).2 := by
  obtain ⟨⟨hrange, hkeys, hreg⟩, hcomp, hstale⟩ := hinv
  cases hc : db.throwIfNodeAlreadyExists db.nodes.length (Node.new I L) with
  | error e =>
    have : (db.addNode L I).2 = db := by
      simp only [GraphDB.addNode, hc]
    rw [this]
    exact ⟨⟨hrange, hkeys, hreg⟩, hcomp, hstale⟩
  | ok u =>
    have hstep : (db.addNode L I).2 =
        (addNodeInserted db L I).reIndex db.nodes.length := by
      simp only [GraphDB.addNode, hc]
      rfl
    rw [hstep]
    have hlen : db.nodes.length ∉ db.nodeSet := by
      rw [hrange]
      simp
    have hset : setAdd db.nodeSet db.nodes.length =
        List.range (db.nodes.length + 1) := by
      rw [setAdd_of_not_mem hlen, hrange, List.range_succ]
    have hreg1 : registration (addNodeInserted db L I) := hreg
    obtain ⟨rn1, rn2, rframe, rcomp, rsrc, rreg⟩ :=
      reIndex_spec (addNodeInserted db L I) db.nodes.length hreg1
    have hnodes1 : (addNodeInserted db L I).nodes = db.nodes ++ [Node.new I L] := rfl
    have hnset1 : (addNodeInserted db L I).nodeSet =
        setAdd db.nodeSet db.nodes.length := rfl
    refine ⟨⟨?_, ?_, rreg⟩, ?_, ?_⟩
    · -- node set is the arena range
      rw [rn2, rn1, hnodes1, hnset1, hset]
      congr 1
      simp
    · -- keys stay duplicate free
      intro h
      rw [rn1, hnodes1, lget_append_single]
      by_cases h1 : h < db.nodes.length
      · rw [if_pos h1]
        exact hkeys h
      · rw [if_neg h1]
        by_cases h2 : h = db.nodes.length
        · rw [if_pos h2]
          simp [Node.new]
        · rw [if_neg h2]
          simp [default]
    · -- completeness
      intro h hmem p w hdget
      rw [rn1, hnodes1] at hdget ⊢
      rw [rn2, hnset1, hset] at hmem
      have hlt : h < db.nodes.length + 1 := by simpa using hmem
      by_cases h1 : h = db.nodes.length
      · subst h1
        rw [lget_concat_self] at hdget ⊢
        have hpw : p = "id" ∧ w = I := by
          simp only [Node.new, dget] at hdget
          by_cases hid : "id" = p
          · rw [if_pos hid] at hdget
            exact ⟨hid.symm, (Option.some.inj hdget).symm⟩
          · rw [if_neg hid] at hdget
            simp [dget] at hdget
        obtain ⟨hp', hw'⟩ := hpw
        rw [hp', hw']
        have hthis := rcomp "id" I (by
          rw [hnodes1, lget_concat_self]
          simp [Node.new])
        rw [hnodes1, lget_concat_self] at hthis
        exact hthis
      · have hlt' : h < db.nodes.length := by omega
        rw [lget_append_left _ _ _ hlt'] at hdget ⊢
        have hmem0 : h ∈ db.nodeSet := by
          rw [hrange]
          simp only [List.mem_range]
          exact hlt'
        have hold := hcomp h hmem0 p w hdget
        exact (rframe _ _ _ h h1).2 hold
    · -- no stale entries
      intro l p w h hmem
      rw [rn1, hnodes1]
      by_cases h1 : h = db.nodes.length
      · subst h1
        have hthis := rsrc l p w hmem
        rw [hnodes1, lget_concat_self] at hthis
        obtain ⟨hl, hpw⟩ := hthis
        have hpwid : p = "id" ∧ w = I := by
          simp only [Node.new] at hpw
          rcases List.mem_cons.1 hpw with h' | h'
          · injection h' with ha hb
            exact ⟨ha, hb⟩
          · simp at h'
        obtain ⟨hp', hw'⟩ := hpwid
        refine ⟨?_, ?_, ?_⟩
        · rw [rn2, hnset1, hset]
          simp
        · rw [lget_concat_self]
          exact hl.symm
        · rw [lget_concat_self, hp', hw']
          simp [Node.new, dget]
      · have hmem1 := (rframe _ _ _ h h1).1 hmem
        have hold := hstale l p w h hmem1
        have hlt' : h < db.nodes.length := by
          have := hold.1
          rw [hrange] at this
          simpa using this
        refine ⟨?_, ?_, ?_⟩
        · rw [rn2, hnset1, hset]
          simp only [List.mem_range]
          omega
        · rw [lget_append_left _ _ _ hlt']
          exact hold.2.1
        · rw [lget_append_left _ _ _ hlt']
          exact hold.2.2

theorem storeInv_setProp (db : GraphDB) (q n v : String) (hinv : StoreInv db) :
    StoreInv (db.addOrUpdateNodeProperty q n v).2 := by
  obtain ⟨⟨hrange, hkeys, hreg⟩, hcomp, hstale⟩ := hinv
  cases hq : db.queryById q with
  | error e =>
    have : (db.addOrUpdateNodeProperty q n v).2 = db := by
      simp only [GraphDB.addOrUpdateNodeProperty, hq]
    rw [this]
    exact ⟨⟨hrange, hkeys, hreg⟩, hcomp, hstale⟩
  | ok hh =>
    cases hp : (lget db.nodes hh).addOrUpdateProperty n v with
    | error e =>
      have : (db.addOrUpdateNodeProperty q n v).2 = db := by
        simp only [GraphDB.addOrUpdateNodeProperty, hq, hp]
      rw [this]
      exact ⟨⟨hrange, hkeys, hreg⟩, hcomp, hstale⟩
    | ok node1 =>
      have hnode1 : node1 = { lget db.nodes hh with
          properties := dput (lget db.nodes hh).properties n v } := by
        simp only [Node.addOrUpdateProperty] at hp
        by_cases hid : "id" = n
        · rw [if_pos hid] at hp
          simp at hp
        · rw [if_neg hid] at hp
          exact (Except.ok.inj hp).symm
      have hstep : (db.addOrUpdateNodeProperty q n v).2 =
          ({ db with nodes := lset db.nodes hh node1 } : GraphDB).reIndex hh := by
        simp only [GraphDB.addOrUpdateNodeProperty, hq, hp]
      rw [hstep]
      -- the updated handle is a stored node
      obtain ⟨l0, v0, hmem0⟩ := queryById_ok_mem db q hh hq
      have hh_node := hstale l0 "id" v0 hh hmem0
      have hhlt : hh < db.nodes.length := by
        have := hh_node.1
        rw [hrange] at this
        simpa using this
      have hreg1 : registration ({ db with nodes := lset db.nodes hh node1 } : GraphDB) :=
        hreg
      obtain ⟨rn1, rn2, rframe, rcomp, rsrc, rreg⟩ :=
        reIndex_spec ({ db with nodes := lset db.nodes hh node1 } : GraphDB) hh hreg1
      have hnodes1 : ({ db with nodes := lset db.nodes hh node1 } : GraphDB).nodes =
          lset db.nodes hh node1 := rfl
      have hget1 : lget (lset db.nodes hh node1) hh = node1 :=
        lget_lset_self _ _ _ hhlt
      refine ⟨⟨?_, ?_, rreg⟩, ?_, ?_⟩
      · rw [rn2, rn1, hnodes1]
        show db.nodeSet = List.range (lset db.nodes hh node1).length
        rw [lset_length]
        exact hrange
      · intro h
        rw [rn1, hnodes1]
        by_cases h1 : h = hh
        · subst h1
          rw [hget1, hnode1]
          exact dput_keys_nodup _ _ _ (hkeys h)
        · rw [lget_lset_ne _ _ _ _ (fun he => h1 he.symm)]
          exact hkeys h
      · -- completeness
        intro h hmem p w hdget
        rw [rn1, hnodes1] at hdget ⊢
        by_cases h1 : h = hh
        · subst h1
          rw [hget1, hnode1] at hdget ⊢
          have hnd1 : ((dput (lget db.nodes h).properties n v).map Prod.fst).Nodup :=
            dput_keys_nodup _ _ _ (hkeys h)
          have hpw : (p, w) ∈ dput (lget db.nodes h).properties n v :=
            (dget_some_iff_mem _ _ _ hnd1).1 hdget
          have hthis := rcomp p w (by rw [hnodes1, hget1, hnode1]; exact hpw)
          rw [hnodes1, hget1, hnode1] at hthis
          exact hthis
        · rw [lget_lset_ne _ _ _ _ (fun he => h1 he.symm)] at hdget ⊢
          have hold := hcomp h (by
            rw [rn2] at hmem
            exact hmem) p w hdget
          exact (rframe _ _ _ h h1).2 hold
      · -- no stale entries
        intro l p w h hmem
        rw [rn1, hnodes1]
        by_cases h1 : h = hh
        · subst h1
          have hthis := rsrc l p w hmem
          rw [hnodes1, hget1, hnode1] at hthis
          obtain ⟨hl, hpw⟩ := hthis
          have hnd1 : ((dput (lget db.nodes h).properties n v).map Prod.fst).Nodup :=
            dput_keys_nodup _ _ _ (hkeys h)
          refine ⟨?_, ?_, ?_⟩
          · rw [rn2]
            exact hh_node.1
          · rw [hget1, hnode1]
            exact hl.symm
          · rw [hget1, hnode1]
            exact (dget_some_iff_mem _ _ _ hnd1).2 hpw
        · have hmem1 := (rframe _ _ _ h h1).1 hmem
          have hold := hstale l p w h hmem1
          refine ⟨?_, ?_, ?_⟩
          · rw [rn2]
            exact hold.1
          · rw [lget_lset_ne _ _ _ _ (fun he => h1 he.symm)]
            exact hold.2.1
          · rw [lget_lset_ne _ _ _ _ (fun he => h1 he.symm)]
            exact hold.2.2

theorem query_parsed (db : GraphDB) (Q : String) (l : String) (k w : Option String)
    (hp : parseQueryQualifier Q = .ok (l, k, w)) :
    db.query (some Q) = .ok (db.lookupSet l k w) := by
  simp only [GraphDB.query, hp]

/-- C2: the empty store satisfies the index consistency invariant, and
    both addNode and addOrUpdateNodeProperty preserve it: every
    label, property, value triple currently true of a stored node has
    that node in the corresponding index set (indexComplete), and no
    index set holds a node under a label or property value it no longer
    has (noStale); moreover query on a parsed qualifier returns exactly
    the indexed set, so an indexed pair is immediately visible through
    queryExact. -/
theorem C2_index_consistency :
    StoreInv emptyDB
    ∧ (∀ (db : GraphDB) (l i : String), StoreInv db → StoreInv (db.addNode l i).2)
    ∧ (∀ (db : GraphDB) (q n v : String), StoreInv db →
        StoreInv (db.addOrUpdateNodeProperty q n v).2)
    ∧ (∀ (db : GraphDB) (Q : String) (l : String) (k w : Option String),
        parseQueryQualifier Q = .ok (l, k, w) →
        db.query (some Q) = .ok (db.lookupSet l k w)) :=
  ⟨storeInv_empty,
   fun db l i hinv => storeInv_addNode db l i hinv,
   fun db q n v hinv => storeInv_setProp db q n v hinv,
   fun db Q l k w hp => query_parsed db Q l k w hp⟩

/-- Witness for C2: the invariant holds after concrete insertions and a
    property update, and the concrete indexed set is returned by query. -/
theorem C2_index_consistency_witness :
    StoreInv ((emptyDB.addNode "Person" "eljo").2.addOrUpdateNodeProperty
      "Person:eljo" "gender" "Male").2
    ∧ (emptyDB.addNode "Person" "eljo").2.query (some "Person:gender=Male") =
        .ok ((emptyDB.addNode "Person" "eljo").2.lookupSet "Person"
          (some "gender") (some "Male")) :=
  ⟨C2_index_consistency.2.2.1 (emptyDB.addNode "Person" "eljo").2
      "Person:eljo" "gender" "Male"
      (C2_index_consistency.2.1 emptyDB "Person" "eljo" C2_index_consistency.1),
   C2_index_consistency.2.2.2 (emptyDB.addNode "Person" "eljo").2
      "Person:gender=Male" "Person" (some "gender") (some "Male") (by decide)⟩
